import Mathlib

/-!
Verification of the Dual-AI-Chat discussion orchestrator.

The development shallowly embeds the TypeScript source: JavaScript strings
become `List Char`, the response parser `parseAIResponse` and the orchestrator
`handleSendMessage` / `handleClearChat` become pure Lean functions, and the
asynchronous model gateway together with the cooperatively polled cancellation
flag becomes an oracle indexed by the number of gateway calls resolved so far
(the program is single-threaded, so the flag can change only while a call is
suspended; one flag value per inter-call window is therefore exact).
-/

namespace DualAIChat

/-! ## JavaScript string primitives on `List Char` -/

/-- Whitespace as recognised by JavaScript `String.prototype.trim`. -/
def isJsWhitespace (c : Char) : Bool :=
  c = ' ' || c = '\t' || c = '\n' || c = '\r' ||
  c.val = 0x0b || c.val = 0x0c || c.val = 0xa0 || c.val = 0x1680 ||
  (0x2000 <= c.val && c.val <= 0x200a) ||
  c.val = 0x2028 || c.val = 0x2029 || c.val = 0x202f || c.val = 0x205f ||
  c.val = 0x3000 || c.val = 0xfeff

/-- Drop leading JS whitespace. -/
def trimLeft (l : List Char) : List Char := l.dropWhile isJsWhitespace

/-- Drop trailing JS whitespace. -/
def trimRight (l : List Char) : List Char := (l.reverse.dropWhile isJsWhitespace).reverse

/-- JavaScript `s.trim()`. -/
def trim (l : List Char) : List Char := trimLeft (trimRight l)

/-- Boolean prefix test (JS `startsWith`, and the building block of the others). -/
def isPre : List Char → List Char → Bool
  | [], _ => true
  | _ :: _, [] => false
  | a :: as, b :: bs => a == b && isPre as bs

/-- Boolean suffix test (JS `endsWith`). -/
def isSuf (pat l : List Char) : Bool := isPre pat.reverse l.reverse

/-- Boolean substring test (JS `includes`). -/
def hasSub (pat : List Char) : List Char → Bool
  | [] => isPre pat []
  | c :: cs => isPre pat (c :: cs) || hasSub pat cs

/-- Largest index `i ≤ n` at which `pat` matches in `l`, scanning downwards. -/
def lastIdxFrom (pat l : List Char) : Nat → Option Nat
  | 0 => if isPre pat l then some 0 else none
  | i + 1 => if isPre pat (l.drop (i + 1)) then some (i + 1) else lastIdxFrom pat l i

/-- JS `l.lastIndexOf(pat)`, with `none` standing for `-1`. -/
def lastIndexOf (pat l : List Char) : Option Nat := lastIdxFrom pat l l.length

/-- JS `l.substring(a, b)` (arguments are swapped when `a > b`, and clamped). -/
def jsSubstring (l : List Char) (a b : Nat) : List Char :=
  (l.drop (min a b)).take (max a b - min a b)

/-- JS `l.replace(new RegExp(escape(pat), 'g'), "")`: one left-to-right pass
removing non-overlapping occurrences of the literal `pat`.  When a match is
found at the head of `c :: cs` the scan resumes after it, i.e. at
`(c :: cs).drop pat.length = cs.drop (pat.length - 1)`. -/
def stripAllAux (pat : List Char) : Nat → List Char → List Char
  | _, [] => []
  | 0, l => l
  | fuel + 1, c :: cs =>
    if pat ≠ [] ∧ isPre pat (c :: cs) = true then
      stripAllAux pat fuel (cs.drop (pat.length - 1))
    else
      c :: stripAllAux pat fuel cs

def stripAll (pat l : List Char) : List Char := stripAllAux pat l.length l

/-- JS `l.replace(pat, repl)` with a plain-string pattern: replace the first
occurrence only. -/
def replaceOnce (pat repl : List Char) (l : List Char) : List Char :=
  match l with
  | [] => []
  | c :: cs =>
    if pat ≠ [] ∧ isPre pat (c :: cs) = true then
      repl ++ cs.drop (pat.length - 1)
    else
      c :: replaceOnce pat repl cs

/-- Shorthand turning a Lean string literal into the character-list model. -/
def str (s : String) : List Char := s.data

/-! ## Constants (from `constants.ts`) -/

def NOTEPAD_UPDATE_TAG_START : List Char := str "<notepad_update>"

def NOTEPAD_UPDATE_TAG_END : List Char := str "</notepad_update>"

def DISCUSSION_COMPLETE_TAG : List Char := str "<discussion_complete />"

def INITIAL_NOTEPAD_CONTENT : List Char :=
  str "这是一个共享记事本。\nCognito 和 Muse 可以在这里合作记录想法、草稿或关键点。\n\n使用指南:\n- AI 模型可以通过在其回复中包含特定指令来更新此记事本。\n- 记事本的内容将包含在发送给 AI 的后续提示中。\n\n初始状态：空白。"

def DEFAULT_MANUAL_FIXED_TURNS : Nat := 2
def MIN_MANUAL_FIXED_TURNS : Nat := 1
def MAX_MANUAL_FIXED_TURNS : Nat := 5
def MAX_AI_DRIVEN_DISCUSSION_TURNS_PER_MODEL : Nat := 3

def NOTEPAD_INSTRUCTION_PROMPT_PART : List Char :=
  str "\nYou also have access to a shared notepad.\nCurrent Notepad Content:\n---\n\x7bnotepadContent\x7d\n---\nInstructions for Notepad:\n1. To update the notepad, include a section at the very end of your response, formatted exactly as:\n   <notepad_update>\n   [YOUR NEW FULL NOTEPAD CONTENT HERE. THIS WILL REPLACE THE ENTIRE CURRENT NOTEPAD CONTENT.]\n   </notepad_update>\n2. If you do not want to change the notepad, do NOT include the <notepad_update> section at all.\n3. Your primary spoken response to the ongoing discussion should come BEFORE any <notepad_update> section. Ensure you still provide a spoken response.\n"

def AI_DRIVEN_DISCUSSION_INSTRUCTION_PROMPT_PART : List Char :=
  str "\nInstruction for ending discussion: If you believe the current topic has been sufficiently explored between you and your AI partner for Cognito to synthesize a final answer for the user, include the exact tag <discussion_complete /> at the very end of your current message (after any notepad update). Do not use this tag if you wish to continue the discussion or require more input/response from your partner.\n"

def COGNITO_SYSTEM_PROMPT_HEADER : List Char := str "You are Cognito, a highly logical AI."

def MUSE_SYSTEM_PROMPT_HEADER : List Char :=
  str "You are Muse, a highly creative AI. You should maintain a skeptical attitude, repeatedly reflect on accuracy, and verify calculations."

inductive DiscussionMode
  | FixedTurns
  | AiDriven
deriving DecidableEq, Repr

/-! ## The response parser (`parseAIResponse` in `App.tsx`) -/

structure ParsedAIResponse where
  spokenText : List Char
  newNotepadContent : Option (List Char)
  discussionShouldEnd : Bool
deriving DecidableEq, Repr

/-- Step 1 of `parseAIResponse`: detect a trailing notepad-update block.
Returns the base spoken text, the optional replacement, and
`notepadActionText`. -/
def parseStep1 (currentText : List Char) : List Char × Option (List Char) × List Char :=
  match lastIndexOf NOTEPAD_UPDATE_TAG_START currentText,
        lastIndexOf NOTEPAD_UPDATE_TAG_END currentText with
  | some notepadStartIndex, some notepadEndIndex =>
    if notepadStartIndex < notepadEndIndex ∧ isSuf NOTEPAD_UPDATE_TAG_END currentText = true then
      let newNotepadContent :=
        trim (jsSubstring currentText (notepadStartIndex + NOTEPAD_UPDATE_TAG_START.length)
          notepadEndIndex)
      let spokenText := trim (jsSubstring currentText 0 notepadStartIndex)
      let notepadActionText :=
        if newNotepadContent ≠ [] then str "更新了记事本" else str "尝试更新记事本但内容为空"
      (spokenText, some newNotepadContent, notepadActionText)
    else
      (currentText, none, [])
  | _, _ => (currentText, none, [])

/-- Step 2 of `parseAIResponse`: detect and strip the discussion-complete tag.
Returns the stripped spoken text, the stop flag, and `discussionActionText`. -/
def parseStep2 (spoken : List Char) : List Char × Bool × List Char :=
  if hasSub DISCUSSION_COMPLETE_TAG spoken = true then
    (trim (stripAll DISCUSSION_COMPLETE_TAG spoken), true, str "建议结束讨论")
  else
    (spoken, false, [])

/-- Step 3 of `parseAIResponse`: synthesize a placeholder when the spoken text
is empty after stripping tags. -/
def parseStep3 (spoken notepadActionText discussionActionText : List Char) : List Char :=
  if trim spoken = [] then
    if notepadActionText ≠ [] ∧ discussionActionText ≠ [] then
      str "(AI " ++ notepadActionText ++ str "并" ++ discussionActionText ++ str ")"
    else if notepadActionText ≠ [] then
      str "(AI " ++ notepadActionText ++ str ")"
    else if discussionActionText ≠ [] then
      str "(AI " ++ discussionActionText ++ str ")"
    else
      str "(AI 未提供额外文本回复)"
  else
    spoken

/-- The response parser `parseAIResponse` from `App.tsx`. -/
def parseAIResponse (responseText : List Char) : ParsedAIResponse :=
  let currentText := trim responseText
  let s1 := parseStep1 currentText
  let s2 := parseStep2 s1.1
  let spokenFinal := parseStep3 s2.1 s1.2.2 s2.2.2
  ⟨trim spokenFinal, s1.2.1, s2.2.1⟩

example :
    parseAIResponse (str "Hello<notepad_update>plan</notepad_update>") =
      ⟨str "Hello", some (str "plan"), false⟩ := by decide

example :
    parseAIResponse (str "  done <discussion_complete />") = ⟨str "done", none, true⟩ := by
  decide

example :
    parseAIResponse (str "<notepad_update>  </notepad_update>") =
      ⟨str "(AI 尝试更新记事本但内容为空)", some [], false⟩ := by decide

example : parseAIResponse (str "") = ⟨str "(AI 未提供额外文本回复)", none, false⟩ := by decide

/-! ## Basic lemmas about the string primitives -/

theorem isPre_iff {p l : List Char} : isPre p l = true ↔ ∃ r, l = p ++ r := by
  induction p generalizing l with
  | nil => simp [isPre]
  | cons a as ih =>
    cases l with
    | nil => simp [isPre]
    | cons b bs =>
      simp only [isPre, Bool.and_eq_true, beq_iff_eq, ih, List.cons_append, List.cons.injEq]
      constructor
      · rintro ⟨rfl, r, rfl⟩
        exact ⟨r, rfl, rfl⟩
      · rintro ⟨r, rfl, rfl⟩
        exact ⟨rfl, r, rfl⟩

theorem isPre_append (p r : List Char) : isPre p (p ++ r) = true :=
  isPre_iff.mpr ⟨r, rfl⟩

theorem isPre_length {p l : List Char} (h : isPre p l = true) : p.length ≤ l.length := by
  obtain ⟨r, rfl⟩ := isPre_iff.mp h
  simp

theorem isSuf_iff {p l : List Char} : isSuf p l = true ↔ ∃ x, l = x ++ p := by
  unfold isSuf
  rw [isPre_iff]
  constructor
  · rintro ⟨r, h⟩
    refine ⟨r.reverse, ?_⟩
    have := congrArg List.reverse h
    simpa using this
  · rintro ⟨x, rfl⟩
    exact ⟨x.reverse, by simp⟩

theorem hasSub_iff {p l : List Char} : hasSub p l = true ↔ ∃ x y, l = x ++ p ++ y := by
  induction l with
  | nil =>
    simp only [hasSub, isPre_iff]
    constructor
    · rintro ⟨r, h⟩
      exact ⟨[], r, by simpa using h⟩
    · rintro ⟨x, y, h⟩
      rcases List.append_eq_nil.mp h.symm with ⟨h1, rfl⟩
      rcases List.append_eq_nil.mp h1 with ⟨rfl, rfl⟩
      exact ⟨[], rfl⟩
  | cons c cs ih =>
    simp only [hasSub, Bool.or_eq_true, ih, isPre_iff]
    constructor
    · rintro (⟨r, h⟩ | ⟨x, y, rfl⟩)
      · exact ⟨[], r, by simpa using h⟩
      · exact ⟨c :: x, y, by simp⟩
    · rintro ⟨x, y, h⟩
      cases x with
      | nil =>
        exact Or.inl ⟨y, by simpa using h⟩
      | cons x0 xs =>
        right
        refine ⟨xs, y, ?_⟩
        rw [List.cons_append, List.cons_append] at h
        exact (List.cons.injEq _ _ _ _ ▸ h).2

theorem hasSub_of_isPre_drop {p l : List Char} {i : Nat}
    (h : isPre p (l.drop i) = true) : hasSub p l = true := by
  obtain ⟨r, hr⟩ := isPre_iff.mp h
  refine hasSub_iff.mpr ⟨l.take i, r, ?_⟩
  calc l = l.take i ++ l.drop i := (List.take_append_drop i l).symm
    _ = l.take i ++ p ++ r := by rw [hr, List.append_assoc]

theorem lastIdxFrom_eq_some {p l : List Char} {i n : Nat}
    (hi : i ≤ n) (hmatch : isPre p (l.drop i) = true)
    (habove : ∀ j, i < j → j ≤ n → isPre p (l.drop j) = false) :
    lastIdxFrom p l n = some i := by
  induction n with
  | zero =>
    have : i = 0 := Nat.le_zero.mp hi
    subst this
    simpa [lastIdxFrom] using hmatch
  | succ n ih =>
    by_cases h : i = n + 1
    · subst h
      rw [lastIdxFrom, if_pos hmatch]
    · have hi' : i ≤ n := by omega
      have hfail : isPre p (l.drop (n + 1)) = false := habove (n + 1) (by omega) le_rfl
      rw [lastIdxFrom, hfail]
      simpa using ih hi' fun j h1 h2 => habove j h1 (by omega)

theorem lastIndexOf_of_suffix {p l : List Char} (hp : p ≠ []) (h : isSuf p l = true) :
    lastIndexOf p l = some (l.length - p.length) := by
  obtain ⟨x, rfl⟩ := isSuf_iff.mp h
  have hx : (x ++ p).length - p.length = x.length := by simp
  rw [lastIndexOf, hx]
  refine lastIdxFrom_eq_some (by simp) ?_ ?_
  · rw [List.drop_left]
    exact isPre_iff.mpr ⟨[], by simp⟩
  · intro j h1 h2
    by_contra hc
    have hlen := isPre_length (Bool.not_eq_false _ ▸ hc)
    have : ((x ++ p).drop j).length = (x ++ p).length - j := List.length_drop j _
    simp only [List.length_append] at this h2
    have hppos : 0 < p.length := List.length_pos.mpr hp
    omega

theorem head?_append_left {x y : List Char} (h : x ≠ []) : (x ++ y).head? = x.head? := by
  cases x with
  | nil => exact absurd rfl h
  | cons a as => simp

theorem isPre_head? {p l : List Char} (hp : p ≠ []) (h : isPre p l = true) :
    l.head? = p.head? := by
  obtain ⟨r, rfl⟩ := isPre_iff.mp h
  exact head?_append_left hp

theorem start_tag_length : NOTEPAD_UPDATE_TAG_START.length = 16 := rfl

theorem end_tag_length : NOTEPAD_UPDATE_TAG_END.length = 17 := rfl

theorem start_tag_ne_nil : NOTEPAD_UPDATE_TAG_START ≠ [] := by decide

theorem end_tag_ne_nil : NOTEPAD_UPDATE_TAG_END ≠ [] := by decide

/-- The start tag's first character `<` occurs nowhere else in the tag, so the
tag cannot match at a position that overlaps a known occurrence of itself. -/
theorem start_tag_no_self_overlap :
    ∀ d : Fin 16, d.val ≠ 0 → (NOTEPAD_UPDATE_TAG_START.drop d.val).head? ≠ some '<' := by
  decide

/-- In `A ++ <start tag> ++ R` with no occurrence of the start tag inside `R`,
the last occurrence of the start tag is the displayed one, at index `A.length`. -/
theorem lastIndexOf_start_tag (A R : List Char)
    (hR : hasSub NOTEPAD_UPDATE_TAG_START R = false) :
    lastIndexOf NOTEPAD_UPDATE_TAG_START (A ++ NOTEPAD_UPDATE_TAG_START ++ R) =
      some A.length := by
  rw [List.append_assoc, lastIndexOf]
  refine lastIdxFrom_eq_some (by simp) ?_ ?_
  · rw [List.drop_left]
    exact isPre_append _ _
  · intro j h1 h2
    by_contra hc
    rw [Bool.not_eq_false] at hc
    rw [show j = A.length + (j - A.length) from by omega, List.drop_append] at hc
    rcases Nat.lt_or_ge (j - A.length) 16 with hd | hd
    · -- overlap with the displayed occurrence: impossible by the `<` argument
      rw [List.drop_append_of_le_length (by rw [start_tag_length]; omega)] at hc
      have hne : NOTEPAD_UPDATE_TAG_START.drop (j - A.length) ≠ [] := by
        have := List.length_drop (j - A.length) NOTEPAD_UPDATE_TAG_START
        rw [start_tag_length] at this
        intro hnil
        rw [hnil] at this
        simp at this
        omega
      have hhead := isPre_head? start_tag_ne_nil hc
      rw [head?_append_left hne] at hhead
      exact start_tag_no_self_overlap ⟨j - A.length, hd⟩ (by simp; omega)
        (by rw [hhead]; rfl)
    · -- the match would lie inside `R`
      rw [show j - A.length = NOTEPAD_UPDATE_TAG_START.length + (j - A.length - 16) from by
            rw [start_tag_length]; omega,
          List.drop_append] at hc
      exact absurd (hasSub_of_isPre_drop hc) (by rw [hR]; exact Bool.false_ne_true)

/-- Step 1 of the parser on a well-formed trailing document block: the
replacement is the trimmed text strictly between the last start tag and the
trailing end tag, and the base spoken text is the trimmed text before that
start tag. -/
theorem parseStep1_block (A B : List Char)
    (hB : hasSub NOTEPAD_UPDATE_TAG_START (B ++ NOTEPAD_UPDATE_TAG_END) = false) :
    parseStep1 (A ++ NOTEPAD_UPDATE_TAG_START ++ B ++ NOTEPAD_UPDATE_TAG_END) =
      (trim A, some (trim B),
        if trim B ≠ [] then str "更新了记事本" else str "尝试更新记事本但内容为空") := by
  set t := A ++ NOTEPAD_UPDATE_TAG_START ++ B ++ NOTEPAD_UPDATE_TAG_END with ht
  have ht2 : t = A ++ (NOTEPAD_UPDATE_TAG_START ++ (B ++ NOTEPAD_UPDATE_TAG_END)) := by
    rw [ht]
    simp [List.append_assoc]
  have hstart : lastIndexOf NOTEPAD_UPDATE_TAG_START t = some A.length := by
    rw [ht, List.append_assoc]
    exact lastIndexOf_start_tag A (B ++ NOTEPAD_UPDATE_TAG_END) hB
  have hsuf : isSuf NOTEPAD_UPDATE_TAG_END t = true :=
    isSuf_iff.mpr ⟨A ++ NOTEPAD_UPDATE_TAG_START ++ B, rfl⟩
  have hlen : t.length = A.length + 16 + B.length + 17 := by
    rw [ht]
    simp only [List.length_append, start_tag_length, end_tag_length]
  have hend : lastIndexOf NOTEPAD_UPDATE_TAG_END t = some (A.length + 16 + B.length) := by
    rw [lastIndexOf_of_suffix end_tag_ne_nil hsuf, end_tag_length, hlen]
    congr 1
  have hdrop : t.drop (A.length + 16) = B ++ NOTEPAD_UPDATE_TAG_END := by
    rw [ht2, show A.length + 16 = A.length + NOTEPAD_UPDATE_TAG_START.length from by
          rw [start_tag_length],
        List.drop_append, List.drop_left]
  have hsub1 : jsSubstring t (A.length + 16) (A.length + 16 + B.length) = B := by
    rw [jsSubstring, min_eq_left (by omega), max_eq_right (by omega), hdrop,
      show A.length + 16 + B.length - (A.length + 16) = B.length from by omega]
    exact List.take_left B _
  have hsub0 : jsSubstring t 0 A.length = A := by
    rw [jsSubstring, min_eq_left (Nat.zero_le _), max_eq_right (Nat.zero_le _),
      List.drop_zero, Nat.sub_zero, ht2]
    exact List.take_left A _
  simp only [parseStep1, hstart, hend, start_tag_length, hsub1, hsub0]
  rw [if_pos ⟨by omega, hsuf⟩]

/-! ## Trimming lemmas -/

theorem dropWhile_dropWhile (q : Char → Bool) (l : List Char) :
    (l.dropWhile q).dropWhile q = l.dropWhile q := by
  induction l with
  | nil => rfl
  | cons c cs ih =>
    by_cases h : q c
    · simp [List.dropWhile_cons, h, ih]
    · simp [List.dropWhile_cons, h]

theorem dropWhile_head? (q : Char → Bool) (l : List Char) (c : Char)
    (h : (l.dropWhile q).head? = some c) : q c = false := by
  induction l with
  | nil => simp at h
  | cons a as ih =>
    rw [List.dropWhile_cons] at h
    by_cases ha : q a
    · exact ih (by simpa [ha] using h)
    · rw [if_neg (by simpa using ha)] at h
      simp only [List.head?_cons, Option.some.injEq] at h
      subst h
      simpa using ha

theorem trimLeft_trimLeft (l : List Char) : trimLeft (trimLeft l) = trimLeft l :=
  dropWhile_dropWhile _ l

theorem trimRight_getLast? (l : List Char) (c : Char)
    (h : (trimRight l).getLast? = some c) : isJsWhitespace c = false := by
  unfold trimRight at h
  rw [List.getLast?_reverse] at h
  exact dropWhile_head? _ _ _ h

theorem trimRight_eq_self (l : List Char) (c : Char) (hc : l.getLast? = some c)
    (hws : isJsWhitespace c = false) : trimRight l = l := by
  unfold trimRight
  have hrev : l.reverse.head? = some c := by rw [List.head?_reverse, hc]
  cases hr : l.reverse with
  | nil => simp [hr] at hrev
  | cons a as =>
    rw [hr] at hrev
    simp only [List.head?_cons, Option.some.injEq] at hrev
    subst hrev
    rw [List.dropWhile_cons, if_neg (by simp [hws]), ← hr, List.reverse_reverse]

theorem trimLeft_getLast? (l : List Char) (h : trimLeft l ≠ []) :
    (trimLeft l).getLast? = l.getLast? := by
  obtain ⟨x, hx⟩ := List.dropWhile_suffix (l := l) isJsWhitespace
  conv_rhs => rw [← hx]
  exact (List.getLast?_append_of_ne_nil x h).symm

theorem trim_trim (l : List Char) : trim (trim l) = trim l := by
  unfold trim
  have h1 : trimRight (trimLeft (trimRight l)) = trimLeft (trimRight l) := by
    cases hv : trimLeft (trimRight l) with
    | nil => rfl
    | cons a as =>
      have hne : trimLeft (trimRight l) ≠ [] := by rw [hv]; simp
      obtain ⟨c, hc⟩ := Option.ne_none_iff_exists'.mp
        (by rw [hv]; simp : (trimLeft (trimRight l)).getLast? ≠ none)
      have hlast := trimLeft_getLast? (trimRight l) hne
      rw [← hv]
      exact trimRight_eq_self _ c hc
        (trimRight_getLast? l c (by rw [← hlast, hc]))
  rw [h1, trimLeft_trimLeft]

theorem trimRight_nil : trimRight [] = [] := rfl

theorem trim_nil : trim [] = [] := rfl

theorem trimRight_append_decomp (l : List Char) : ∃ y, l = trimRight l ++ y := by
  obtain ⟨x, hx⟩ := List.dropWhile_suffix (l := l.reverse) isJsWhitespace
  refine ⟨x.reverse, ?_⟩
  have h := congrArg List.reverse hx
  simp only [List.reverse_append, List.reverse_reverse] at h
  exact h.symm

theorem trimLeft_append_decomp (l : List Char) : ∃ x, l = x ++ trimLeft l := by
  obtain ⟨x, hx⟩ := List.dropWhile_suffix (l := l) isJsWhitespace
  exact ⟨x, hx.symm⟩

theorem trim_infix_decomp (l : List Char) : ∃ x y, l = x ++ trim l ++ y := by
  obtain ⟨y, hy⟩ := trimRight_append_decomp l
  obtain ⟨x, hx⟩ := trimLeft_append_decomp (trimRight l)
  refine ⟨x, y, ?_⟩
  show l = x ++ trimLeft (trimRight l) ++ y
  conv_lhs => rw [hy]
  conv_lhs => rw [hx]

theorem hasSub_trim_mono {p l : List Char} (h : hasSub p (trim l) = true) :
    hasSub p l = true := by
  obtain ⟨x, y, hxy⟩ := trim_infix_decomp l
  obtain ⟨u, v, huv⟩ := hasSub_iff.mp h
  refine hasSub_iff.mpr ⟨x ++ u, v ++ y, ?_⟩
  rw [hxy, huv]
  simp [List.append_assoc]

theorem hasSub_mono_of_not {p l : List Char} (h : hasSub p l = false) :
    hasSub p (trim l) = false := by
  by_contra hc
  rw [Bool.not_eq_false] at hc
  rw [hasSub_trim_mono hc] at h
  simp at h

theorem trimLeft_append_keep (x rest : List Char) (c : Char) (hh : rest.head? = some c)
    (hc : isJsWhitespace c = false) : ∃ x2, trimLeft (x ++ rest) = x2 ++ rest := by
  induction x with
  | nil =>
    refine ⟨[], ?_⟩
    cases rest with
    | nil => simp at hh
    | cons a as =>
      simp only [List.head?_cons, Option.some.injEq] at hh
      subst hh
      simp [trimLeft, List.dropWhile_cons, hc]
  | cons a as ih =>
    by_cases h : isJsWhitespace a
    · obtain ⟨x2, hx2⟩ := ih
      refine ⟨x2, ?_⟩
      simpa [trimLeft, List.dropWhile_cons, h] using hx2
    · exact ⟨a :: as, by simp [trimLeft, List.dropWhile_cons, h]⟩

theorem trimRight_append_keep (rest y : List Char) (c : Char) (hl : rest.getLast? = some c)
    (hc : isJsWhitespace c = false) : ∃ y2, trimRight (rest ++ y) = rest ++ y2 := by
  obtain ⟨x2, hx2⟩ :=
    trimLeft_append_keep y.reverse rest.reverse c (by rw [List.head?_reverse, hl]) hc
  refine ⟨x2.reverse, ?_⟩
  unfold trimRight
  rw [List.reverse_append]
  unfold trimLeft at hx2
  rw [hx2]
  simp

/-- Trimming removes characters only at the two ends, so an interior segment
whose first and last characters are not whitespace survives verbatim. -/
theorem trim_append_keep (x rest y : List Char) (ch cl : Char)
    (hh : rest.head? = some ch) (hch : isJsWhitespace ch = false)
    (hl : rest.getLast? = some cl) (hcl : isJsWhitespace cl = false) :
    ∃ x2 y2, trim (x ++ rest ++ y) = x2 ++ rest ++ y2 := by
  have hrne : rest ≠ [] := by
    intro h
    rw [h] at hh
    simp at hh
  obtain ⟨y2, hy2⟩ := trimRight_append_keep (x ++ rest) y cl
    (by rw [List.getLast?_append_of_ne_nil x hrne, hl]) hcl
  obtain ⟨x2, hx2⟩ := trimLeft_append_keep x (rest ++ y2) ch
    (by rw [head?_append_left hrne, hh]) hch
  refine ⟨x2, y2, ?_⟩
  unfold trim
  rw [hy2, List.append_assoc, hx2, ← List.append_assoc]

/-! ## Parser master lemmas -/

theorem parseStep1_no_end (t : List Char)
    (hend : isSuf NOTEPAD_UPDATE_TAG_END t = false) : parseStep1 t = (t, none, []) := by
  unfold parseStep1
  split
  · rw [if_neg (by simp [hend])]
  · rfl

theorem parseStep2_no_tag (t : List Char)
    (h : hasSub DISCUSSION_COMPLETE_TAG t = false) : parseStep2 t = (t, false, []) := by
  unfold parseStep2
  rw [if_neg (by simp [h])]

/-- On input whose trimmed form carries a well-formed trailing document block,
the parser extracts the trimmed text between the last start tag and the
trailing end tag as the notepad replacement. -/
theorem parseAIResponse_block_content (raw A B : List Char)
    (ht : trim raw = A ++ NOTEPAD_UPDATE_TAG_START ++ B ++ NOTEPAD_UPDATE_TAG_END)
    (hB : hasSub NOTEPAD_UPDATE_TAG_START (B ++ NOTEPAD_UPDATE_TAG_END) = false) :
    (parseAIResponse raw).newNotepadContent = some (trim B) := by
  simp only [parseAIResponse, ht, parseStep1_block A B hB]

/-- On input whose trimmed form carries a well-formed trailing document block,
if the text before the last start tag carries no stop tag and trims to a
nonempty string, the full parse result is determined. -/
theorem parseAIResponse_block_full (raw A B : List Char)
    (ht : trim raw = A ++ NOTEPAD_UPDATE_TAG_START ++ B ++ NOTEPAD_UPDATE_TAG_END)
    (hB : hasSub NOTEPAD_UPDATE_TAG_START (B ++ NOTEPAD_UPDATE_TAG_END) = false)
    (hstop : hasSub DISCUSSION_COMPLETE_TAG A = false) (hne : trim A ≠ []) :
    parseAIResponse raw = ⟨trim A, some (trim B), false⟩ := by
  have hst : hasSub DISCUSSION_COMPLETE_TAG (trim A) = false := hasSub_mono_of_not hstop
  simp only [parseAIResponse, ht, parseStep1_block A B hB, parseStep2_no_tag _ hst,
    parseStep3, trim_trim, if_neg hne]

/-- On input whose trimmed form does not end with the end tag, carries no stop
tag, and is nonempty, the parser passes the trimmed text through unchanged. -/
theorem parseAIResponse_no_block (raw : List Char)
    (hend : isSuf NOTEPAD_UPDATE_TAG_END (trim raw) = false)
    (hstop : hasSub DISCUSSION_COMPLETE_TAG (trim raw) = false)
    (hne : trim raw ≠ []) :
    parseAIResponse raw = ⟨trim raw, none, false⟩ := by
  simp only [parseAIResponse, parseStep1_no_end _ hend, parseStep2_no_tag _ hstop,
    parseStep3, trim_trim, if_neg hne]

/-! ## Claim C4 -/

/-- C4 (amended): for every raw string whose trimmed form decomposes as
`A ++ start tag ++ B ++ end tag` (a well-formed trailing document block, the
tags being the last such occurrences), `parse` returns exactly the trimmed
inner text `trim B` as the document replacement — unconditionally, whatever
the text `A` before the start marker is; and, provided `A` contains no stop
token and trims to a nonempty string, the spoken residue is exactly
`trim A`. -/
theorem C4_trailing_block_parse (raw A B : List Char)
    (ht : trim raw = A ++ NOTEPAD_UPDATE_TAG_START ++ B ++ NOTEPAD_UPDATE_TAG_END)
    (hB : hasSub NOTEPAD_UPDATE_TAG_START (B ++ NOTEPAD_UPDATE_TAG_END) = false) :
    (parseAIResponse raw).newNotepadContent = some (trim B) ∧
    (hasSub DISCUSSION_COMPLETE_TAG A = false → trim A ≠ [] →
      (parseAIResponse raw).spokenText = trim A) := by
  refine ⟨parseAIResponse_block_content raw A B ht hB, fun hstop hne => ?_⟩
  rw [parseAIResponse_block_full raw A B ht hB hstop hne]

/-- C4 witness: the replacement extraction at a block-only input (empty
pre-marker text, where only the unconditional half applies), and the full
result at a concrete well-formed trailing block with spoken residue. -/
theorem C4_witness :
    (parseAIResponse (str "<notepad_update>x</notepad_update>")).newNotepadContent =
        some (trim (str "x")) ∧
    (parseAIResponse (str "Hi<notepad_update>note</notepad_update>")).newNotepadContent =
        some (trim (str "note")) ∧
    (parseAIResponse (str "Hi<notepad_update>note</notepad_update>")).spokenText =
        trim (str "Hi") :=
  ⟨(C4_trailing_block_parse (str "<notepad_update>x</notepad_update>") [] (str "x")
      (by decide) (by decide)).1,
   (C4_trailing_block_parse (str "Hi<notepad_update>note</notepad_update>") (str "Hi")
      (str "note") (by decide) (by decide)).1,
   (C4_trailing_block_parse (str "Hi<notepad_update>note</notepad_update>") (str "Hi")
      (str "note") (by decide) (by decide)).2 (by decide) (by decide)⟩

/-- C4 counterexample to the claim as frozen: a block-only input satisfies the
claim's hypotheses (trimmed form ends with the end marker, a start marker
before it), yet the returned spoken residue is a synthesized placeholder, not
the (empty) trimmed text before the start marker. -/
theorem C4_counterexample :
    trim (str "<notepad_update>x</notepad_update>") =
        [] ++ NOTEPAD_UPDATE_TAG_START ++ str "x" ++ NOTEPAD_UPDATE_TAG_END ∧
    (parseAIResponse (str "<notepad_update>x</notepad_update>")).spokenText ≠ trim [] := by
  decide

/-! ## Claim C5 -/

/-- C5 (amended): for every raw string whose trimmed form does not end with the
document end marker, and which contains no stop token and trims to a nonempty
string, `parse` returns `documentReplacement = none` and the full trimmed text
as the spoken residue, and re-parsing that residue returns it unchanged
(idempotence of the no-valid-block case). -/
theorem C5_no_trailing_end_marker (raw : List Char)
    (hend : isSuf NOTEPAD_UPDATE_TAG_END (trim raw) = false)
    (hstop : hasSub DISCUSSION_COMPLETE_TAG (trim raw) = false)
    (hne : trim raw ≠ []) :
    (parseAIResponse raw).newNotepadContent = none ∧
    (parseAIResponse raw).spokenText = trim raw ∧
    parseAIResponse ((parseAIResponse raw).spokenText) = ⟨trim raw, none, false⟩ := by
  have h := parseAIResponse_no_block raw hend hstop hne
  have ht : trim (trim raw) = trim raw := trim_trim raw
  refine ⟨by rw [h], by rw [h], ?_⟩
  rw [h]
  have h2 := parseAIResponse_no_block (trim raw) (by rw [ht]; exact hend)
    (by rw [ht]; exact hstop) (by rw [ht]; exact hne)
  rw [h2, ht]

/-- C5 witness: a concrete marker-free input. -/
theorem C5_witness :
    (parseAIResponse (str "hello")).newNotepadContent = none ∧
    (parseAIResponse (str "hello")).spokenText = trim (str "hello") ∧
    parseAIResponse ((parseAIResponse (str "hello")).spokenText) =
      ⟨trim (str "hello"), none, false⟩ :=
  C5_no_trailing_end_marker (str "hello") (by decide) (by decide) (by decide)

/-- C5 counterexample to the claim as frozen: the all-whitespace input has no
trailing end marker, yet the returned spoken residue is a synthesized
placeholder rather than the (empty) trimmed text. -/
theorem C5_counterexample :
    isSuf NOTEPAD_UPDATE_TAG_END (trim (str "")) = false ∧
    (parseAIResponse (str "")).spokenText ≠ trim (str "") := by
  decide

/-! ## Claim C10 -/

/-- C10 (amended): when the trimmed raw text contains two start markers before
the trailing end marker, the document replacement is taken from the last start
marker — unconditionally, whatever the text before that marker is — and,
provided the text before that last start marker carries no stop token, the
spoken residue is exactly that text trimmed, so the earlier document block
(marker tags and inner content) remains inside the spoken residue. -/
theorem C10_last_start_marker_wins (raw A1 A2 B : List Char)
    (ht : trim raw = A1 ++ NOTEPAD_UPDATE_TAG_START ++ A2 ++ NOTEPAD_UPDATE_TAG_START ++
      B ++ NOTEPAD_UPDATE_TAG_END)
    (hB : hasSub NOTEPAD_UPDATE_TAG_START (B ++ NOTEPAD_UPDATE_TAG_END) = false) :
    (parseAIResponse raw).newNotepadContent = some (trim B) ∧
    (hasSub DISCUSSION_COMPLETE_TAG (A1 ++ NOTEPAD_UPDATE_TAG_START ++ A2) = false →
      (parseAIResponse raw).spokenText = trim (A1 ++ NOTEPAD_UPDATE_TAG_START ++ A2) ∧
      hasSub NOTEPAD_UPDATE_TAG_START (parseAIResponse raw).spokenText = true) := by
  refine ⟨parseAIResponse_block_content raw (A1 ++ NOTEPAD_UPDATE_TAG_START ++ A2) B ht hB,
    fun hstop => ?_⟩
  obtain ⟨x2, y2, hxy⟩ := trim_append_keep A1 NOTEPAD_UPDATE_TAG_START A2 '<' '>'
    (by decide) (by decide) (by decide) (by decide)
  have hne : trim (A1 ++ NOTEPAD_UPDATE_TAG_START ++ A2) ≠ [] := by
    apply List.ne_nil_of_length_pos
    rw [hxy]
    simp only [List.length_append, start_tag_length]
    omega
  have hfull := parseAIResponse_block_full raw (A1 ++ NOTEPAD_UPDATE_TAG_START ++ A2) B
    ht hB hstop hne
  refine ⟨by rw [hfull], ?_⟩
  rw [hfull]
  show hasSub NOTEPAD_UPDATE_TAG_START (trim (A1 ++ NOTEPAD_UPDATE_TAG_START ++ A2)) = true
  rw [hxy]
  exact hasSub_iff.mpr ⟨x2, y2, rfl⟩

/-- C10 witness: two concrete document blocks — the replacement comes from the
second block and the first block survives verbatim in the spoken residue — and
the replacement extraction alone on an input whose earlier block carries a stop
token (only the unconditional half applies there). -/
theorem C10_witness :
    (parseAIResponse
        (str "<notepad_update>a</notepad_update><notepad_update>b</notepad_update>")).newNotepadContent =
      some (trim (str "b")) ∧
    (parseAIResponse
        (str "<notepad_update><discussion_complete /></notepad_update><notepad_update>b</notepad_update>")).newNotepadContent =
      some (trim (str "b")) ∧
    (parseAIResponse
        (str "<notepad_update>a</notepad_update><notepad_update>b</notepad_update>")).spokenText =
      trim ([] ++ NOTEPAD_UPDATE_TAG_START ++ str "a</notepad_update>") ∧
    hasSub NOTEPAD_UPDATE_TAG_START
      (parseAIResponse
        (str "<notepad_update>a</notepad_update><notepad_update>b</notepad_update>")).spokenText =
      true :=
  ⟨(C10_last_start_marker_wins
      (str "<notepad_update>a</notepad_update><notepad_update>b</notepad_update>")
      [] (str "a</notepad_update>") (str "b") (by decide) (by decide)).1,
   (C10_last_start_marker_wins
      (str "<notepad_update><discussion_complete /></notepad_update><notepad_update>b</notepad_update>")
      [] (str "<discussion_complete /></notepad_update>") (str "b")
      (by decide) (by decide)).1,
   ((C10_last_start_marker_wins
      (str "<notepad_update>a</notepad_update><notepad_update>b</notepad_update>")
      [] (str "a</notepad_update>") (str "b") (by decide) (by decide)).2 (by decide)).1,
   ((C10_last_start_marker_wins
      (str "<notepad_update>a</notepad_update><notepad_update>b</notepad_update>")
      [] (str "a</notepad_update>") (str "b") (by decide) (by decide)).2 (by decide)).2⟩

/-- C10 counterexample to the claim as frozen: when the earlier block's inner
content contains the stop token, that token is stripped from the spoken
residue, so the text before the last start marker does not survive verbatim. -/
theorem C10_counterexample :
    trim (str "<notepad_update><discussion_complete /></notepad_update><notepad_update>b</notepad_update>") =
      [] ++ NOTEPAD_UPDATE_TAG_START ++ str "<discussion_complete /></notepad_update>" ++
        NOTEPAD_UPDATE_TAG_START ++ str "b" ++ NOTEPAD_UPDATE_TAG_END ∧
    (parseAIResponse
        (str "<notepad_update><discussion_complete /></notepad_update><notepad_update>b</notepad_update>")).spokenText ≠
      trim ([] ++ NOTEPAD_UPDATE_TAG_START ++ str "<discussion_complete /></notepad_update>") := by
  decide

/-! ## Claim C9 -/

/-- C9 (code-bug evidence): stop-token stripping is not idempotent.  On the
input `<` ++ tag ++ `discussion_complete />` the single left-to-right stripping
pass reassembles a stop token from the surrounding fragments, so the returned
spoken text is exactly the stop token and re-parsing it reports
`stopSignaled = true`, contradicting the specified idempotence. -/
theorem C9_strip_reassembles_token :
    (parseAIResponse (str "<<discussion_complete />discussion_complete />")).spokenText =
      DISCUSSION_COMPLETE_TAG ∧
    (parseAIResponse
        ((parseAIResponse
          (str "<<discussion_complete />discussion_complete />")).spokenText)).discussionShouldEnd =
      true := by
  decide

/-! ## Orchestrator data model (from `types.ts`, `constants.ts`, `App.tsx`)

The message `id` (random) and `timestamp` (wall clock) of `ChatMessage`, the
elapsed-time display timer and the blob URL of the attachment echo are
environment-owned values with no influence on control flow; they are omitted
from the embedding. -/

inductive MessageSender
  | User
  | Cognito
  | Muse
  | System
deriving DecidableEq, Repr

def senderName : MessageSender → List Char
  | .User => str "User"
  | .Cognito => str "Cognito"
  | .Muse => str "Muse"
  | .System => str "System"

inductive MessagePurpose
  | UserInput
  | SystemNotification
  | CognitoToMuse
  | MuseToCognito
  | FinalResponse
deriving DecidableEq, Repr

structure ChatMessage where
  text : List Char
  sender : MessageSender
  purpose : MessagePurpose
  durationMs : Option Nat
  hasImage : Bool
deriving DecidableEq, Repr

structure AiModel where
  id : List Char
  name : List Char
  apiName : List Char
  supportsThinkingBudget : Bool
deriving DecidableEq, Repr

def MODELS : List AiModel :=
  [⟨str "flash-05-20", str "Gemini 2.5 Flash (05-20)", str "gemini-2.5-flash-preview-05-20",
      true⟩,
   ⟨str "pro-05-06", str "Gemini 2.5 Pro (05-06)", str "gemini-2.5-pro-preview-05-06", false⟩]

def fallbackModel : AiModel :=
  ⟨str "flash-05-20", str "Gemini 2.5 Flash (05-20)", str "gemini-2.5-flash-preview-05-20", true⟩

def DEFAULT_MODEL_API_NAME : List Char := (MODELS.headD fallbackModel).apiName

/-- `MODELS.find(m => m.apiName === selectedModelApiName) || MODELS[0]`. -/
def currentModelDetails (apiName : List Char) : AiModel :=
  (MODELS.find? fun m => m.apiName == apiName).getD (MODELS.headD fallbackModel)

structure AppState where
  messages : List ChatMessage
  isLoading : Bool
  isApiKeyMissing : Bool
  notepadContent : List Char
  lastNotepadUpdateBy : Option MessageSender
  selectedModelApiName : List Char
  isThinkingBudgetEnabled : Bool
  discussionMode : DiscussionMode
  manualFixedTurns : Nat
  cancelRequest : Bool
deriving DecidableEq, Repr

def addMessage (st : AppState) (text : List Char) (sender : MessageSender)
    (purpose : MessagePurpose) (durationMs : Option Nat) (hasImage : Bool) : AppState :=
  { st with messages := st.messages ++ [⟨text, sender, purpose, durationMs, hasImage⟩] }

/-- Shorthand for the frequent `addMessage(text, System, SystemNotification)`. -/
def addSysMessage (st : AppState) (text : List Char) : AppState :=
  addMessage st text MessageSender.System MessagePurpose.SystemNotification none false

/-- The result shape of the model gateway (`generateResponse` in the service
layer): response text, elapsed milliseconds, optional error text. -/
structure GenResult where
  text : List Char
  durationMs : Nat
  error : Option (List Char)
deriving DecidableEq, Repr

/-- The run's environment.  `resp k prompt` is the result of the `k`-th gateway
call (0-based) for the prompt the orchestrator built; `cancel k` is the value
of the cancellation flag in the window after `k` calls have resolved (the
orchestrator is single-threaded, so the flag is constant between suspension
points); `imageOk` tells whether `fileToBase64` succeeds. -/
structure Oracle where
  resp : Nat → List Char → GenResult
  cancel : Nat → Bool
  imageOk : Bool

/-- Observable state captured when a gateway call is issued. -/
structure Snapshot where
  messages : List ChatMessage
  notepadContent : List Char
  lastNotepadUpdateBy : Option MessageSender
deriving DecidableEq, Repr

def snapOf (st : AppState) : Snapshot := ⟨st.messages, st.notepadContent, st.lastNotepadUpdateBy⟩

inductive RunOutcome
  | rejected
  | imageError
  | cancelled
  | errored
  | completed
deriving DecidableEq, Repr

/-- Result of one `handleSendMessage` run: the final state, how the run ended,
the number of gateway calls made, the snapshot taken at each call's issuance,
and the parsed stop flag of each discussion-phase persona call. -/
structure RunResult where
  state : AppState
  outcome : RunOutcome
  calls : Nat
  snaps : List Snapshot
  sigs : List Bool
deriving DecidableEq, Repr

/-- Commit a parsed response's notepad update, as the orchestrator does after
every turn: `if (parsed.newNotepadContent !== null) setNotepadContent(...);
setLastNotepadUpdateBy(sender)`. -/
def applyNotepad (sender : MessageSender) (p : ParsedAIResponse) (st : AppState) : AppState :=
  match p.newNotepadContent with
  | some c => { st with notepadContent := c, lastNotepadUpdateBy := some sender }
  | none => st

/-! ## Fixed texts used by the orchestrator -/

def natToChars (n : Nat) : List Char := (toString n).data

def API_KEY_WARNING : List Char :=
  str "严重警告：API_KEY 未配置。请确保设置 API_KEY 环境变量，以便应用程序正常运行。"

def API_KEY_INVALID_MARKER : List Char := str "API key not valid"

def IMAGE_FAIL_TEXT : List Char := str "图片处理失败，请重试。"

def getWelcomeMessageText (modelName : List Char) (currentDiscussionMode : DiscussionMode)
    (currentManualFixedTurns : Nat) : List Char :=
  let modeDescription :=
    if currentDiscussionMode = DiscussionMode.FixedTurns then
      str "固定轮次对话 (" ++ natToChars currentManualFixedTurns ++ str "轮)"
    else
      str "AI驱动对话"
  str "欢迎使用Dual AI Chat！当前模式: " ++ modeDescription ++
    str "。在下方输入您的问题或上传图片。" ++ senderName .Cognito ++ str " 和 " ++
    senderName .Muse ++ str " 将进行讨论，并可能使用右侧的共享记事本。然后 " ++
    senderName .Cognito ++ str " 会给您回复。当前模型: " ++ modelName

def imageInstructionForAI (hasImage : Bool) : List Char :=
  if hasImage then str "用户还提供了一张图片。请在您的分析和回复中同时考虑此图片和文本查询。"
  else []

def discussionModeInstruction (mode : DiscussionMode) : List Char :=
  if mode = DiscussionMode.AiDriven then AI_DRIVEN_DISCUSSION_INSTRUCTION_PROMPT_PART else []

/-- `NOTEPAD_INSTRUCTION_PROMPT_PART.replace('{notepadContent}', notepadContent)`
followed by the mode instruction. -/
def promptInstructions (notepad : List Char) (mode : DiscussionMode) : List Char :=
  replaceOnce (str "{notepadContent}") notepad NOTEPAD_INSTRUCTION_PROMPT_PART ++
    discussionModeInstruction mode

/-! ## The orchestrator (`handleSendMessage` / `handleClearChat` in `App.tsx`)

The gateway also receives the model identifier, the persona's system preamble,
the thinking-budget switch and the attachment; these pass through to the HTTP
layer unchanged and are absorbed into the oracle's `resp`. -/

structure RunCtx where
  o : Oracle
  userInput : List Char
  hasImage : Bool
  modelName : List Char
  mode : DiscussionMode
  manualFixedTurns : Nat

structure LoopSt where
  st : AppState
  discussionLog : List (List Char)
  lastTurnTextForLog : List Char
  previousAISignaledStop : Bool
  callIdx : Nat
  snaps : List Snapshot
  sigs : List Bool

inductive LoopExit
  | cancelled
  | errored (msg : List Char)
  | finished
deriving DecidableEq, Repr

inductive TurnStep
  | exited (e : LoopExit)
  | broke
  | next
deriving DecidableEq, Repr

/-- Advance the call counter and snapshot the observable state, as happens
when a gateway call is issued. -/
def bumpCall (s : LoopSt) : LoopSt :=
  { s with callIdx := s.callIdx + 1, snaps := s.snaps ++ [snapOf s.st] }

def cognitoInitialPromptOf (ctx : RunCtx) (notepad : List Char) : List Char :=
  str "User query: \"" ++ ctx.userInput ++ str "\". " ++ imageInstructionForAI ctx.hasImage ++
    str " Please provide your initial thoughts or analysis on this query, so that " ++
    senderName .Muse ++
    str " (the creative AI) can respond and start a discussion with you. Please respond in the same language as the user's query." ++
    str "\n" ++ promptInstructions notepad ctx.mode

def consensusRequestLine (who : MessageSender) : List Char :=
  str "\n" ++ senderName who ++ str " has included " ++ DISCUSSION_COMPLETE_TAG ++
    str " suggesting to end the discussion. If you agree, please include " ++
    DISCUSSION_COMPLETE_TAG ++ str " in your response. Otherwise, continue the discussion."

def musePromptOf (ctx : RunCtx) (s : LoopSt) : List Char :=
  let base := MUSE_SYSTEM_PROMPT_HEADER ++ str " User query: \"" ++ ctx.userInput ++
    str "\". " ++ imageInstructionForAI ctx.hasImage ++ str " Current discussion:\n" ++
    List.intercalate (str "\n") s.discussionLog ++ str "\n" ++ senderName .Cognito ++
    str " (logical AI) just said: \"" ++ s.lastTurnTextForLog ++
    str "\". Please respond to " ++ senderName .Cognito ++
    str ". Continue the discussion. Keep your response concise and use the same language as the ongoing conversation.\n" ++
    promptInstructions s.st.notepadContent ctx.mode
  if ctx.mode = DiscussionMode.AiDriven ∧ s.previousAISignaledStop = true then
    base ++ consensusRequestLine .Cognito
  else base

def cognitoReplyPromptOf (ctx : RunCtx) (s : LoopSt) : List Char :=
  let base := COGNITO_SYSTEM_PROMPT_HEADER ++ str " User query: \"" ++ ctx.userInput ++
    str "\". " ++ imageInstructionForAI ctx.hasImage ++ str " Current discussion:\n" ++
    List.intercalate (str "\n") s.discussionLog ++ str "\n" ++ senderName .Muse ++
    str " (creative AI) just said: \"" ++ s.lastTurnTextForLog ++
    str "\". Please respond to " ++ senderName .Muse ++
    str ". Continue the discussion. Keep your response concise and use the same language as the ongoing conversation.\n" ++
    promptInstructions s.st.notepadContent ctx.mode
  if ctx.mode = DiscussionMode.AiDriven ∧ s.previousAISignaledStop = true then
    base ++ consensusRequestLine .Muse
  else base

def finalAnswerPromptOf (ctx : RunCtx) (s : LoopSt) : List Char :=
  COGNITO_SYSTEM_PROMPT_HEADER ++ str " Original user query: \"" ++ ctx.userInput ++
    str "\". " ++ imageInstructionForAI ctx.hasImage ++ str " You (" ++ senderName .Cognito ++
    str ") and " ++ senderName .Muse ++ str " had the following discussion:\n" ++
    List.intercalate (str "\n") s.discussionLog ++
    str "\nBased on the entire conversation and the final state of the shared notepad, synthesize all key points and create a comprehensive, useful final answer for the user. Reply directly to the user, not to " ++
    senderName .Muse ++
    str ". Ensure the answer is well-structured and easy to understand. Use the same language as the ongoing conversation. You may reference the notepad if relevant. If necessary, you can also use the standard notepad update instructions to make a final update to the notepad.\n" ++
    promptInstructions s.st.notepadContent ctx.mode

/-- Status message preceding a Muse turn. -/
def museStatus (ctx : RunCtx) (s : LoopSt) : LoopSt :=
  { s with st := addSysMessage s.st (senderName .Muse ++ str " 正在回应 " ++
    senderName .Cognito ++ str " (使用 " ++ ctx.modelName ++ str ")...") }

/-- Processing of a resolved Muse gateway call: cancellation re-check, error
check, commit (notepad, transcript, log), and the agreement bookkeeping of
`AgreementDriven` mode.  `s1` is the state after the call was issued. -/
def museProcess (ctx : RunCtx) (s1 : LoopSt) (r : GenResult) : LoopSt × TurnStep :=
  if ctx.o.cancel s1.callIdx then (s1, .exited .cancelled)
  else
    match r.error with
    | some e =>
      if hasSub API_KEY_INVALID_MARKER e then
        ({ s1 with st := { s1.st with isApiKeyMissing := true } }, .exited (.errored r.text))
      else (s1, .exited (.errored r.text))
    | none =>
      let p := parseAIResponse r.text
      let st2 := applyNotepad .Muse p s1.st
      let st3 := addMessage st2 p.spokenText MessageSender.Muse MessagePurpose.MuseToCognito
        (some r.durationMs) false
      let s2 := { s1 with
        st := st3,
        lastTurnTextForLog := p.spokenText,
        discussionLog := s1.discussionLog ++ [senderName .Muse ++ str ": " ++ p.spokenText],
        sigs := s1.sigs ++ [p.discussionShouldEnd] }
      if ctx.mode = DiscussionMode.AiDriven then
        if p.discussionShouldEnd then
          if s2.previousAISignaledStop then
            ({ s2 with st := addSysMessage s2.st (str "双方AI (" ++ senderName .Cognito ++
                str " 和 " ++ senderName .Muse ++ str ") 已同意结束讨论。") }, .broke)
          else
            ({ s2 with
                previousAISignaledStop := true,
                st := addSysMessage s2.st (senderName .Muse ++ str " 已建议结束讨论。等待 " ++
                  senderName .Cognito ++ str " 的回应。") }, .next)
        else ({ s2 with previousAISignaledStop := false }, .next)
      else (s2, .next)

/-- One Muse turn inside the discussion loop: status message, gateway call,
then `museProcess`. -/
def museTurn (ctx : RunCtx) (s : LoopSt) : LoopSt × TurnStep :=
  let s0 := museStatus ctx s
  museProcess ctx (bumpCall s0) (ctx.o.resp s0.callIdx (musePromptOf ctx s0))

/-- Status message preceding a Cognito reply turn. -/
def cognitoStatus (ctx : RunCtx) (s : LoopSt) : LoopSt :=
  { s with st := addSysMessage s.st (senderName .Cognito ++ str " 正在回应 " ++
    senderName .Muse ++ str " (使用 " ++ ctx.modelName ++ str ")...") }

/-- Processing of a resolved Cognito reply call, symmetric to `museProcess`. -/
def cognitoProcess (ctx : RunCtx) (s1 : LoopSt) (r : GenResult) : LoopSt × TurnStep :=
  if ctx.o.cancel s1.callIdx then (s1, .exited .cancelled)
  else
    match r.error with
    | some e =>
      if hasSub API_KEY_INVALID_MARKER e then
        ({ s1 with st := { s1.st with isApiKeyMissing := true } }, .exited (.errored r.text))
      else (s1, .exited (.errored r.text))
    | none =>
      let p := parseAIResponse r.text
      let st2 := applyNotepad .Cognito p s1.st
      let st3 := addMessage st2 p.spokenText MessageSender.Cognito
        MessagePurpose.CognitoToMuse (some r.durationMs) false
      let s2 := { s1 with
        st := st3,
        lastTurnTextForLog := p.spokenText,
        discussionLog := s1.discussionLog ++ [senderName .Cognito ++ str ": " ++ p.spokenText],
        sigs := s1.sigs ++ [p.discussionShouldEnd] }
      if ctx.mode = DiscussionMode.AiDriven then
        if p.discussionShouldEnd then
          if s2.previousAISignaledStop then
            ({ s2 with st := addSysMessage s2.st (str "双方AI (" ++ senderName .Muse ++
                str " 和 " ++ senderName .Cognito ++ str ") 已同意结束讨论。") }, .broke)
          else
            ({ s2 with
                previousAISignaledStop := true,
                st := addSysMessage s2.st (senderName .Cognito ++ str " 已建议结束讨论。等待 " ++
                  senderName .Muse ++ str " 的回应。") }, .next)
        else ({ s2 with previousAISignaledStop := false }, .next)
      else (s2, .next)

/-- One Cognito reply turn inside the discussion loop. -/
def cognitoReplyTurn (ctx : RunCtx) (s : LoopSt) : LoopSt × TurnStep :=
  let s0 := cognitoStatus ctx s
  cognitoProcess ctx (bumpCall s0) (ctx.o.resp s0.callIdx (cognitoReplyPromptOf ctx s0))

def maxTurnsReachedText : List Char :=
  str "已达到AI驱动模式下的最大讨论轮次。 " ++ senderName .Cognito ++ str " 将准备最终答复。"

/-- The discussion `for` loop of `handleSendMessage`, by recursion on the
number of remaining exchange pairs (`n + 1` remaining means the current
iteration is `turn = maxTurns - (n + 1)`, so `n = 0` is the last turn). -/
def discussionLoop (ctx : RunCtx) : Nat → LoopSt → LoopSt × LoopExit
  | 0, s => (s, .finished)
  | n + 1, s =>
    if ctx.o.cancel s.callIdx then (s, .cancelled)
    else
      match museTurn ctx s with
      | (s1, .exited e) => (s1, e)
      | (s1, .broke) => (s1, .finished)
      | (s1, .next) =>
        if ctx.mode = DiscussionMode.FixedTurns ∧ n = 0 then (s1, .finished)
        else if ctx.o.cancel s1.callIdx then (s1, .cancelled)
        else
          match cognitoReplyTurn ctx s1 with
          | (s2, .exited e) => (s2, e)
          | (s2, .broke) => (s2, .finished)
          | (s2, .next) =>
            let s3 := if n = 0 ∧ ctx.mode = DiscussionMode.AiDriven then
                { s2 with st := addSysMessage s2.st maxTurnsReachedText }
              else s2
            discussionLoop ctx n s3

def maxTurnsForLoop (mode : DiscussionMode) (manualFixedTurns : Nat) : Nat :=
  if mode = DiscussionMode.AiDriven then MAX_AI_DRIVEN_DISCUSSION_TURNS_PER_MODEL
  else manualFixedTurns

/-- The `finally` block: `setIsLoading(false)`, and release of the
environment-owned timer and blob URL (not modelled).  The cancellation flag is
not reset here. -/
def finalizeRun (s : LoopSt) (outcome : RunOutcome) : RunResult :=
  ⟨{ s.st with isLoading := false }, outcome, s.callIdx, s.snaps, s.sigs⟩

/-- The `catch` block of `handleSendMessage` (reached only when the cancel flag
was read false at the throw site, since no suspension point lies between). -/
def errorCatch (st : AppState) (msg : List Char) : AppState :=
  if hasSub (str "API_KEY 未配置") msg ∨ hasSub (str "API密钥无效") msg then
    addMessage { st with isApiKeyMissing := true }
      (str "错误：" ++ msg ++ str " 请检查您的API密钥配置。聊天功能可能无法正常工作。")
      MessageSender.System MessagePurpose.SystemNotification (some 0) false
  else
    addMessage st (str "错误: " ++ msg) MessageSender.System MessagePurpose.SystemNotification
      (some 0) false

/-- Status message preceding the initial Cognito call. -/
def initialStatus (ctx : RunCtx) (s : LoopSt) : LoopSt :=
  { s with st := addSysMessage s.st (senderName .Cognito ++ str " 正在为 " ++
    senderName .Muse ++ str " 准备第一个观点 (使用 " ++ ctx.modelName ++ str ")...") }

/-- Processing of the resolved initial Cognito call: cancellation re-check,
error check, commit, and the seeding of the pending-agreement flag from the
opening turn's stop signal (`AgreementDriven` mode only). -/
def initialProcess (ctx : RunCtx) (s1 : LoopSt) (r : GenResult) : LoopSt × TurnStep :=
  if ctx.o.cancel s1.callIdx then (s1, .exited .cancelled)
  else
    match r.error with
    | some e =>
      if hasSub API_KEY_INVALID_MARKER e then
        ({ s1 with st := { s1.st with isApiKeyMissing := true } }, .exited (.errored r.text))
      else (s1, .exited (.errored r.text))
    | none =>
      let p := parseAIResponse r.text
      let st4 := addMessage (applyNotepad .Cognito p s1.st) p.spokenText MessageSender.Cognito
        MessagePurpose.CognitoToMuse (some r.durationMs) false
      let prev0 := if ctx.mode = DiscussionMode.AiDriven then p.discussionShouldEnd else false
      let st5 := if prev0 then
          addSysMessage st4 (senderName .Cognito ++ str " 已建议结束讨论。等待 " ++
            senderName .Muse ++ str " 的回应。")
        else st4
      ({ s1 with
          st := st5,
          discussionLog := [senderName .Cognito ++ str ": " ++ p.spokenText],
          lastTurnTextForLog := p.spokenText,
          previousAISignaledStop := prev0,
          sigs := [p.discussionShouldEnd] }, .next)

/-- The initial Cognito call. -/
def initialTurn (ctx : RunCtx) (s : LoopSt) : LoopSt × TurnStep :=
  let s0 := initialStatus ctx s
  initialProcess ctx (bumpCall s0) (ctx.o.resp s0.callIdx
    (cognitoInitialPromptOf ctx s0.st.notepadContent))

/-- Status message preceding the final synthesis call. -/
def finalStatus (ctx : RunCtx) (s : LoopSt) : LoopSt :=
  { s with st := addSysMessage s.st (senderName .Cognito ++
    str " 正在综合讨论内容，准备最终答案 (使用 " ++ ctx.modelName ++ str ")...") }

/-- Processing of the resolved final synthesis call. -/
def finalProcess (ctx : RunCtx) (s1 : LoopSt) (r : GenResult) : LoopSt × TurnStep :=
  if ctx.o.cancel s1.callIdx then (s1, .exited .cancelled)
  else
    match r.error with
    | some e =>
      if hasSub API_KEY_INVALID_MARKER e then
        ({ s1 with st := { s1.st with isApiKeyMissing := true } }, .exited (.errored r.text))
      else (s1, .exited (.errored r.text))
    | none =>
      let p := parseAIResponse r.text
      let st7 := addMessage (applyNotepad .Cognito p s1.st) p.spokenText MessageSender.Cognito
        MessagePurpose.FinalResponse (some r.durationMs) false
      ({ s1 with st := st7 }, .next)

/-- The final synthesis call. -/
def finalTurn (ctx : RunCtx) (s : LoopSt) : LoopSt × TurnStep :=
  let s0 := finalStatus ctx s
  finalProcess ctx (bumpCall s0) (ctx.o.resp s0.callIdx (finalAnswerPromptOf ctx s0))

/-- The `try` body of `handleSendMessage` from the first gateway call on,
starting from the state `st2` that already holds the user's message. -/
def runAfterImage (ctx : RunCtx) (st2 : AppState) : RunResult :=
  match initialTurn ctx ⟨st2, [], [], false, 0, [], []⟩ with
  | (s2, .exited .cancelled) => finalizeRun s2 .cancelled
  | (s2, .exited (.errored m)) => finalizeRun { s2 with st := errorCatch s2.st m } .errored
  | (s2, .exited .finished) => finalizeRun s2 .completed
  | (s2, .broke) => finalizeRun s2 .completed
  | (s2, .next) =>
    match discussionLoop ctx (maxTurnsForLoop ctx.mode ctx.manualFixedTurns) s2 with
    | (s3, .cancelled) => finalizeRun s3 .cancelled
    | (s3, .errored m) => finalizeRun { s3 with st := errorCatch s3.st m } .errored
    | (s3, .finished) =>
      if ctx.o.cancel s3.callIdx then finalizeRun s3 .cancelled
      else
        match finalTurn ctx s3 with
        | (s5, .exited .cancelled) => finalizeRun s5 .cancelled
        | (s5, .exited (.errored m)) =>
          finalizeRun { s5 with st := errorCatch s5.st m } .errored
        | (s5, .exited .finished) => finalizeRun s5 .completed
        | (s5, .broke) => finalizeRun s5 .completed
        | (s5, .next) => finalizeRun s5 .completed

/-- The orchestrator entry point `handleSendMessage`. -/
def handleSendMessage (o : Oracle) (userInput : List Char) (hasImage : Bool)
    (st : AppState) : RunResult :=
  if st.isApiKeyMissing = true ∨ st.isLoading = true then ⟨st, .rejected, 0, [], []⟩
  else if trim userInput = [] ∧ hasImage = false then ⟨st, .rejected, 0, [], []⟩
  else
    let ctx : RunCtx := ⟨o, userInput, hasImage,
      (currentModelDetails st.selectedModelApiName).name, st.discussionMode,
      st.manualFixedTurns⟩
    let st1 : AppState := { st with cancelRequest := false, isLoading := true }
    let st2 := addMessage st1 userInput MessageSender.User MessagePurpose.UserInput none
      hasImage
    if hasImage = true ∧ o.imageOk = false then
      ⟨{ addSysMessage st2 IMAGE_FAIL_TEXT with isLoading := false }, .imageError, 0, [], []⟩
    else
      runAfterImage ctx st2

/-- `handleClearChat`: request cancellation of any active run, stop the loading
state, clear the transcript, reset the notepad, and post the welcome notice
(or the credentials warning when the key is flagged missing). -/
def handleClearChat (st : AppState) : AppState :=
  let st1 : AppState := { st with
    cancelRequest := if st.isLoading then true else st.cancelRequest,
    isLoading := false,
    messages := [],
    notepadContent := INITIAL_NOTEPAD_CONTENT,
    lastNotepadUpdateBy := none }
  if st.isApiKeyMissing = false then
    addSysMessage st1 (getWelcomeMessageText (currentModelDetails st.selectedModelApiName).name
      st.discussionMode st.manualFixedTurns)
  else
    addSysMessage st1 API_KEY_WARNING

/-- The initial application state (all `useState` initial values). -/
def initialAppState : AppState :=
  ⟨[], false, false, INITIAL_NOTEPAD_CONTENT, none, DEFAULT_MODEL_API_NAME, true,
    DiscussionMode.FixedTurns, DEFAULT_MANUAL_FIXED_TURNS, false⟩

/-! ## Claim C7 -/

/-- C7 (amended): after `handleClearChat`, regardless of the prior state, the
transcript is reset, the shared document equals the initial placeholder with no
last-writer attribution, and a single fresh notice is posted — the welcome
notice when credentials are configured, the credentials warning otherwise; if a
run was active its cancellation was requested. -/
theorem C7_clear_chat (st : AppState) :
    (handleClearChat st).notepadContent = INITIAL_NOTEPAD_CONTENT ∧
    (handleClearChat st).lastNotepadUpdateBy = none ∧
    (handleClearChat st).isLoading = false ∧
    (handleClearChat st).messages =
      [⟨if st.isApiKeyMissing then API_KEY_WARNING
        else getWelcomeMessageText (currentModelDetails st.selectedModelApiName).name
          st.discussionMode st.manualFixedTurns,
        MessageSender.System, MessagePurpose.SystemNotification, none, false⟩] ∧
    (st.isLoading = true → (handleClearChat st).cancelRequest = true) := by
  by_cases h : st.isApiKeyMissing <;>
    simp [handleClearChat, addSysMessage, addMessage, h] <;>
    intro h2 <;> simp [h2]

/-- C7 witness: clearing while a run is active (credentials present). -/
theorem C7_witness :
    (handleClearChat { initialAppState with isLoading := true }).notepadContent =
      INITIAL_NOTEPAD_CONTENT ∧
    (handleClearChat { initialAppState with isLoading := true }).lastNotepadUpdateBy = none ∧
    (handleClearChat { initialAppState with isLoading := true }).isLoading = false ∧
    (handleClearChat { initialAppState with isLoading := true }).cancelRequest = true := by
  have h := C7_clear_chat { initialAppState with isLoading := true }
  exact ⟨h.1, h.2.1, h.2.2.1, h.2.2.2.2 rfl⟩

/-- C7 counterexample to the claim as frozen: when the credentials-missing flag
is set, `handleClearChat` posts the credentials warning, not a welcome notice,
so "a fresh welcome notice is posted" does not hold regardless of prior
state. -/
theorem C7_counterexample :
    (handleClearChat { initialAppState with isApiKeyMissing := true }).messages ≠
      [⟨getWelcomeMessageText (currentModelDetails initialAppState.selectedModelApiName).name
          initialAppState.discussionMode initialAppState.manualFixedTurns,
        MessageSender.System, MessagePurpose.SystemNotification, none, false⟩] := by
  decide

/-! ## Claim C8 -/

/-- C8 (confirmed): for every raw string carrying a well-formed trailing
document block whose inner content trims to the empty string, `parse` returns
`documentReplacement = some ""` — distinguished from the no-block case `none` —
and the orchestrator's commit wipes the shared document to the empty string and
attributes the write to the responding persona. -/
theorem C8_empty_block_wipe (raw A B : List Char) (st : AppState) (sender : MessageSender)
    (ht : trim raw = A ++ NOTEPAD_UPDATE_TAG_START ++ B ++ NOTEPAD_UPDATE_TAG_END)
    (hB : hasSub NOTEPAD_UPDATE_TAG_START (B ++ NOTEPAD_UPDATE_TAG_END) = false)
    (hBe : trim B = []) :
    (parseAIResponse raw).newNotepadContent = some [] ∧
    (parseAIResponse raw).newNotepadContent ≠ none ∧
    (applyNotepad sender (parseAIResponse raw) st).notepadContent = [] ∧
    (applyNotepad sender (parseAIResponse raw) st).lastNotepadUpdateBy = some sender := by
  have h := parseAIResponse_block_content raw A B ht hB
  rw [hBe] at h
  refine ⟨h, by rw [h]; simp, ?_, ?_⟩ <;> simp [applyNotepad, h]

/-- C8 witness: an empty-but-present block wipes the notepad. -/
theorem C8_witness :
    (parseAIResponse (str "done<notepad_update>  </notepad_update>")).newNotepadContent =
      some [] ∧
    (parseAIResponse (str "done<notepad_update>  </notepad_update>")).newNotepadContent ≠
      none ∧
    (applyNotepad MessageSender.Muse
      (parseAIResponse (str "done<notepad_update>  </notepad_update>"))
      initialAppState).notepadContent = [] ∧
    (applyNotepad MessageSender.Muse
      (parseAIResponse (str "done<notepad_update>  </notepad_update>"))
      initialAppState).lastNotepadUpdateBy = some MessageSender.Muse :=
  C8_empty_block_wipe (str "done<notepad_update>  </notepad_update>") (str "done")
    (str "  ") initialAppState MessageSender.Muse (by decide) (by decide) (by decide)

/-! ## Transcript monotonicity: every step only appends messages -/

theorem applyNotepad_messages (sender : MessageSender) (p : ParsedAIResponse)
    (st : AppState) : (applyNotepad sender p st).messages = st.messages := by
  unfold applyNotepad
  cases p.newNotepadContent <;> rfl

theorem bumpCall_st (s : LoopSt) : (bumpCall s).st = s.st := rfl

theorem addSysMessage_messages (st : AppState) (t : List Char) :
    (addSysMessage st t).messages = st.messages ++
      [⟨t, MessageSender.System, MessagePurpose.SystemNotification, none, false⟩] := rfl

theorem museStatus_messages (ctx : RunCtx) (s : LoopSt) :
    ∃ d, (museStatus ctx s).st.messages = s.st.messages ++ d :=
  ⟨_, rfl⟩

theorem museProcess_messages (ctx : RunCtx) (s1 : LoopSt) (r : GenResult) :
    ∃ d, (museProcess ctx s1 r).1.st.messages = s1.st.messages ++ d := by
  unfold museProcess
  by_cases hc : ctx.o.cancel s1.callIdx = true
  · rw [if_pos hc]
    exact ⟨[], by simp⟩
  · rw [if_neg hc]
    cases hre : r.error with
    | some e =>
      dsimp only
      by_cases hk : hasSub API_KEY_INVALID_MARKER e = true
      · rw [if_pos hk]
        exact ⟨[], by simp⟩
      · rw [if_neg hk]
        exact ⟨[], by simp⟩
    | none =>
      dsimp only
      by_cases hm : ctx.mode = DiscussionMode.AiDriven
      · rw [if_pos hm]
        by_cases he : (parseAIResponse r.text).discussionShouldEnd = true
        · rw [if_pos he]
          by_cases hp : s1.previousAISignaledStop = true
          · rw [if_pos hp]
            exact ⟨_, by simp only [addSysMessage, addMessage, applyNotepad_messages,
              List.append_assoc] <;> rfl⟩
          · rw [if_neg hp]
            exact ⟨_, by simp only [addSysMessage, addMessage, applyNotepad_messages,
              List.append_assoc] <;> rfl⟩
        · rw [if_neg he]
          exact ⟨_, by simp only [addSysMessage, addMessage, applyNotepad_messages,
            List.append_assoc] <;> rfl⟩
      · rw [if_neg hm]
        exact ⟨_, by simp only [addSysMessage, addMessage, applyNotepad_messages,
          List.append_assoc] <;> rfl⟩

theorem exists_append_trans {α : Type} {A B C : List α}
    (h1 : ∃ d, C = B ++ d) (h2 : ∃ d, B = A ++ d) : ∃ d, C = A ++ d := by
  obtain ⟨d1, rfl⟩ := h1
  obtain ⟨d2, rfl⟩ := h2
  exact ⟨d2 ++ d1, by rw [List.append_assoc]⟩

theorem museTurn_messages (ctx : RunCtx) (s : LoopSt) :
    ∃ d, (museTurn ctx s).1.st.messages = s.st.messages ++ d := by
  unfold museTurn
  refine exists_append_trans ?_ (museStatus_messages ctx s)
  have h := museProcess_messages ctx (bumpCall (museStatus ctx s))
    (ctx.o.resp (museStatus ctx s).callIdx (musePromptOf ctx (museStatus ctx s)))
  rwa [bumpCall_st] at h

theorem cognitoProcess_messages (ctx : RunCtx) (s1 : LoopSt) (r : GenResult) :
    ∃ d, (cognitoProcess ctx s1 r).1.st.messages = s1.st.messages ++ d := by
  unfold cognitoProcess
  by_cases hc : ctx.o.cancel s1.callIdx = true
  · rw [if_pos hc]
    exact ⟨[], by simp⟩
  · rw [if_neg hc]
    cases hre : r.error with
    | some e =>
      dsimp only
      by_cases hk : hasSub API_KEY_INVALID_MARKER e = true
      · rw [if_pos hk]
        exact ⟨[], by simp⟩
      · rw [if_neg hk]
        exact ⟨[], by simp⟩
    | none =>
      dsimp only
      by_cases hm : ctx.mode = DiscussionMode.AiDriven
      · rw [if_pos hm]
        by_cases he : (parseAIResponse r.text).discussionShouldEnd = true
        · rw [if_pos he]
          by_cases hp : s1.previousAISignaledStop = true
          · rw [if_pos hp]
            exact ⟨_, by simp only [addSysMessage, addMessage, applyNotepad_messages,
              List.append_assoc] <;> rfl⟩
          · rw [if_neg hp]
            exact ⟨_, by simp only [addSysMessage, addMessage, applyNotepad_messages,
              List.append_assoc] <;> rfl⟩
        · rw [if_neg he]
          exact ⟨_, by simp only [addSysMessage, addMessage, applyNotepad_messages,
            List.append_assoc] <;> rfl⟩
      · rw [if_neg hm]
        exact ⟨_, by simp only [addSysMessage, addMessage, applyNotepad_messages,
          List.append_assoc] <;> rfl⟩

theorem cognitoStatus_messages (ctx : RunCtx) (s : LoopSt) :
    ∃ d, (cognitoStatus ctx s).st.messages = s.st.messages ++ d :=
  ⟨_, rfl⟩

theorem cognitoReplyTurn_messages (ctx : RunCtx) (s : LoopSt) :
    ∃ d, (cognitoReplyTurn ctx s).1.st.messages = s.st.messages ++ d := by
  unfold cognitoReplyTurn
  refine exists_append_trans ?_ (cognitoStatus_messages ctx s)
  have h := cognitoProcess_messages ctx (bumpCall (cognitoStatus ctx s))
    (ctx.o.resp (cognitoStatus ctx s).callIdx (cognitoReplyPromptOf ctx (cognitoStatus ctx s)))
  rwa [bumpCall_st] at h

theorem initialStatus_messages (ctx : RunCtx) (s : LoopSt) :
    ∃ d, (initialStatus ctx s).st.messages = s.st.messages ++ d :=
  ⟨_, rfl⟩

theorem finalStatus_messages (ctx : RunCtx) (s : LoopSt) :
    ∃ d, (finalStatus ctx s).st.messages = s.st.messages ++ d :=
  ⟨_, rfl⟩

theorem initialProcess_messages (ctx : RunCtx) (s1 : LoopSt) (r : GenResult) :
    ∃ d, (initialProcess ctx s1 r).1.st.messages = s1.st.messages ++ d := by
  unfold initialProcess
  by_cases hc : ctx.o.cancel s1.callIdx = true
  · rw [if_pos hc]
    exact ⟨[], by simp⟩
  · rw [if_neg hc]
    cases hre : r.error with
    | some e =>
      dsimp only
      by_cases hk : hasSub API_KEY_INVALID_MARKER e = true
      · rw [if_pos hk]
        exact ⟨[], by simp⟩
      · rw [if_neg hk]
        exact ⟨[], by simp⟩
    | none =>
      dsimp only
      by_cases hp : (if ctx.mode = DiscussionMode.AiDriven then
          (parseAIResponse r.text).discussionShouldEnd else false) = true
      · rw [if_pos hp]
        exact ⟨_, by simp only [addSysMessage, addMessage, applyNotepad_messages,
          List.append_assoc] <;> rfl⟩
      · rw [if_neg hp]
        exact ⟨_, by simp only [addSysMessage, addMessage, applyNotepad_messages,
          List.append_assoc] <;> rfl⟩

theorem initialTurn_messages (ctx : RunCtx) (s : LoopSt) :
    ∃ d, (initialTurn ctx s).1.st.messages = s.st.messages ++ d := by
  unfold initialTurn
  refine exists_append_trans ?_ (initialStatus_messages ctx s)
  have h := initialProcess_messages ctx (bumpCall (initialStatus ctx s))
    (ctx.o.resp (initialStatus ctx s).callIdx
      (cognitoInitialPromptOf ctx (initialStatus ctx s).st.notepadContent))
  rwa [bumpCall_st] at h

theorem finalProcess_messages (ctx : RunCtx) (s1 : LoopSt) (r : GenResult) :
    ∃ d, (finalProcess ctx s1 r).1.st.messages = s1.st.messages ++ d := by
  unfold finalProcess
  by_cases hc : ctx.o.cancel s1.callIdx = true
  · rw [if_pos hc]
    exact ⟨[], by simp⟩
  · rw [if_neg hc]
    cases hre : r.error with
    | some e =>
      dsimp only
      by_cases hk : hasSub API_KEY_INVALID_MARKER e = true
      · rw [if_pos hk]
        exact ⟨[], by simp⟩
      · rw [if_neg hk]
        exact ⟨[], by simp⟩
    | none =>
      exact ⟨_, by simp only [addMessage, applyNotepad_messages, List.append_assoc] <;> rfl⟩

theorem finalTurn_messages (ctx : RunCtx) (s : LoopSt) :
    ∃ d, (finalTurn ctx s).1.st.messages = s.st.messages ++ d := by
  unfold finalTurn
  refine exists_append_trans ?_ (finalStatus_messages ctx s)
  have h := finalProcess_messages ctx (bumpCall (finalStatus ctx s))
    (ctx.o.resp (finalStatus ctx s).callIdx (finalAnswerPromptOf ctx (finalStatus ctx s)))
  rwa [bumpCall_st] at h

theorem discussionLoop_messages (ctx : RunCtx) (n : Nat) :
    ∀ s : LoopSt, ∃ d, (discussionLoop ctx n s).1.st.messages = s.st.messages ++ d := by
  induction n with
  | zero => exact fun s => ⟨[], by simp [discussionLoop]⟩
  | succ n ih =>
    intro s
    rw [discussionLoop]
    by_cases hc : ctx.o.cancel s.callIdx = true
    · rw [if_pos hc]
      exact ⟨[], by simp⟩
    · rw [if_neg hc]
      obtain ⟨d1, hd1⟩ := museTurn_messages ctx s
      rcases hm : museTurn ctx s with ⟨s1, step⟩
      rw [hm] at hd1
      have e1 : ∃ d, s1.st.messages = s.st.messages ++ d := ⟨d1, hd1⟩
      cases step with
      | exited e => exact e1
      | broke => exact e1
      | next =>
        dsimp only
        by_cases hf : ctx.mode = DiscussionMode.FixedTurns ∧ n = 0
        · rw [if_pos hf]
          exact e1
        · rw [if_neg hf]
          by_cases hc2 : ctx.o.cancel s1.callIdx = true
          · rw [if_pos hc2]
            exact e1
          · rw [if_neg hc2]
            obtain ⟨d2, hd2⟩ := cognitoReplyTurn_messages ctx s1
            rcases hcog : cognitoReplyTurn ctx s1 with ⟨s2, step2⟩
            rw [hcog] at hd2
            have e2 : ∃ d, s2.st.messages = s.st.messages ++ d :=
              exists_append_trans ⟨d2, hd2⟩ e1
            cases step2 with
            | exited e => exact e2
            | broke => exact e2
            | next =>
              dsimp only
              refine exists_append_trans (exists_append_trans (ih _) ?_) e2
              by_cases h3 : n = 0 ∧ ctx.mode = DiscussionMode.AiDriven
              · rw [if_pos h3]
                exact ⟨_, rfl⟩
              · rw [if_neg h3]
                exact ⟨[], by simp⟩

theorem finalizeRun_outcome (s : LoopSt) (oc : RunOutcome) :
    (finalizeRun s oc).outcome = oc := rfl

theorem finalizeRun_messages (s : LoopSt) (oc : RunOutcome) :
    (finalizeRun s oc).state.messages = s.st.messages := rfl

theorem errorCatch_messages (st : AppState) (m : List Char) :
    ∃ d, (errorCatch st m).messages = st.messages ++ d := by
  unfold errorCatch
  by_cases h : (hasSub (str "API_KEY 未配置") m = true ∨ hasSub (str "API密钥无效") m = true)
  · rw [if_pos h]
    exact ⟨_, rfl⟩
  · rw [if_neg h]
    exact ⟨_, rfl⟩

theorem cancelled_ne_rejected : RunOutcome.cancelled ≠ RunOutcome.rejected := by decide

theorem errored_ne_rejected : RunOutcome.errored ≠ RunOutcome.rejected := by decide

theorem completed_ne_rejected : RunOutcome.completed ≠ RunOutcome.rejected := by decide

theorem runAfterImage_messages (ctx : RunCtx) (st2 : AppState) :
    (runAfterImage ctx st2).outcome ≠ RunOutcome.rejected ∧
    ∃ d, (runAfterImage ctx st2).state.messages = st2.messages ++ d := by
  unfold runAfterImage
  obtain ⟨d1, hd1⟩ := initialTurn_messages ctx ⟨st2, [], [], false, 0, [], []⟩
  rcases hin : initialTurn ctx ⟨st2, [], [], false, 0, [], []⟩ with ⟨s2, step⟩
  rw [hin] at hd1
  have e1 : ∃ d, s2.st.messages = st2.messages ++ d := ⟨d1, hd1⟩
  have ecatch : ∀ (s : LoopSt) (m : List Char),
      (∃ d, s.st.messages = st2.messages ++ d) →
      ∃ d, (errorCatch s.st m).messages = st2.messages ++ d :=
    fun s m hs => exists_append_trans (errorCatch_messages s.st m) hs
  cases step with
  | exited e =>
    cases e with
    | cancelled => exact ⟨cancelled_ne_rejected, e1⟩
    | errored m => exact ⟨errored_ne_rejected, ecatch s2 m e1⟩
    | finished => exact ⟨completed_ne_rejected, e1⟩
  | broke => exact ⟨completed_ne_rejected, e1⟩
  | next =>
    dsimp only
    obtain ⟨dL, hdL⟩ := discussionLoop_messages ctx
      (maxTurnsForLoop ctx.mode ctx.manualFixedTurns) s2
    rcases hdl : discussionLoop ctx (maxTurnsForLoop ctx.mode ctx.manualFixedTurns) s2
      with ⟨s3, ex⟩
    rw [hdl] at hdL
    have e3 : ∃ d, s3.st.messages = st2.messages ++ d := exists_append_trans ⟨dL, hdL⟩ e1
    cases ex with
    | cancelled => exact ⟨cancelled_ne_rejected, e3⟩
    | errored m => exact ⟨errored_ne_rejected, ecatch s3 m e3⟩
    | finished =>
      dsimp only
      by_cases hc : ctx.o.cancel s3.callIdx = true
      · rw [if_pos hc]
        exact ⟨cancelled_ne_rejected, e3⟩
      · rw [if_neg hc]
        obtain ⟨dF, hdF⟩ := finalTurn_messages ctx s3
        rcases hft : finalTurn ctx s3 with ⟨s5, step5⟩
        rw [hft] at hdF
        have e5 : ∃ d, s5.st.messages = st2.messages ++ d :=
          exists_append_trans ⟨dF, hdF⟩ e3
        cases step5 with
        | exited e =>
          cases e with
          | cancelled => exact ⟨cancelled_ne_rejected, e5⟩
          | errored m => exact ⟨errored_ne_rejected, ecatch s5 m e5⟩
          | finished => exact ⟨completed_ne_rejected, e5⟩
        | broke => exact ⟨completed_ne_rejected, e5⟩
        | next => exact ⟨completed_ne_rejected, e5⟩

theorem imageError_ne_rejected : RunOutcome.imageError ≠ RunOutcome.rejected := by decide

/-- When the guards pass, a run really starts: the outcome is never
`rejected`, and the user's message is appended to the transcript. -/
theorem handleSendMessage_run_starts (o : Oracle) (userInput : List Char) (hasImage : Bool)
    (st : AppState) (h1 : st.isApiKeyMissing = false) (h2 : st.isLoading = false)
    (h3 : ¬(trim userInput = [] ∧ hasImage = false)) :
    (handleSendMessage o userInput hasImage st).outcome ≠ RunOutcome.rejected ∧
    ∃ rest, (handleSendMessage o userInput hasImage st).state.messages =
      st.messages ++ ⟨userInput, MessageSender.User, MessagePurpose.UserInput, none,
        hasImage⟩ :: rest := by
  unfold handleSendMessage
  rw [if_neg (by simp [h1, h2]), if_neg h3]
  dsimp only
  by_cases hi : hasImage = true ∧ o.imageOk = false
  · rw [if_pos hi]
    refine ⟨imageError_ne_rejected,
      ⟨[⟨IMAGE_FAIL_TEXT, MessageSender.System, MessagePurpose.SystemNotification, none,
        false⟩], ?_⟩⟩
    simp only [addSysMessage, addMessage, List.append_assoc]
    rfl
  · rw [if_neg hi]
    have h := runAfterImage_messages ⟨o, userInput, hasImage,
      (currentModelDetails st.selectedModelApiName).name, st.discussionMode,
      st.manualFixedTurns⟩ (addMessage { st with cancelRequest := false, isLoading := true }
      userInput MessageSender.User MessagePurpose.UserInput none hasImage)
    obtain ⟨hne, d, hd⟩ := h
    refine ⟨hne, ⟨d, ?_⟩⟩
    rw [hd]
    simp only [addMessage, List.append_assoc]
    rfl

/-! ## Claim C6 -/

/-- C6 (amended): `handleSendMessage` is a no-op (unchanged state, no gateway
call, rejected outcome) exactly when the credentials-missing flag is set, a run
is already active, or the user provided neither non-blank text nor an
attachment; and whenever credentials are present, no run is active and an
attachment is supplied (even with empty text), a run starts: the user's turn is
appended to the transcript. -/
theorem C6_send_guard (o : Oracle) (userInput : List Char) (hasImage : Bool)
    (st : AppState) :
    (((handleSendMessage o userInput hasImage st).outcome = RunOutcome.rejected ∧
      (handleSendMessage o userInput hasImage st).state = st ∧
      (handleSendMessage o userInput hasImage st).calls = 0) ↔
      (st.isApiKeyMissing = true ∨ st.isLoading = true ∨
        (trim userInput = [] ∧ hasImage = false))) ∧
    ((st.isApiKeyMissing = false ∧ st.isLoading = false ∧ hasImage = true) →
      ∃ rest, (handleSendMessage o userInput hasImage st).state.messages =
        st.messages ++ ⟨userInput, MessageSender.User, MessagePurpose.UserInput, none,
          hasImage⟩ :: rest) := by
  constructor
  · constructor
    · intro hlhs
      by_contra hcond
      have ha : st.isApiKeyMissing = false := by
        rcases Bool.eq_false_or_eq_true st.isApiKeyMissing with h | h
        · exact absurd (Or.inl h) hcond
        · exact h
      have hb : st.isLoading = false := by
        rcases Bool.eq_false_or_eq_true st.isLoading with h | h
        · exact absurd (Or.inr (Or.inl h)) hcond
        · exact h
      have hcd : ¬(trim userInput = [] ∧ hasImage = false) := fun hx =>
        hcond (Or.inr (Or.inr hx))
      exact (handleSendMessage_run_starts o userInput hasImage st ha hb hcd).1 hlhs.1
    · intro hcond
      unfold handleSendMessage
      rcases hcond with h | h | h
      · rw [if_pos (Or.inl h)]
        exact ⟨rfl, rfl, rfl⟩
      · rw [if_pos (Or.inr h)]
        exact ⟨rfl, rfl, rfl⟩
      · by_cases hA : st.isApiKeyMissing = true ∨ st.isLoading = true
        · rw [if_pos hA]
          exact ⟨rfl, rfl, rfl⟩
        · rw [if_neg hA, if_pos h]
          exact ⟨rfl, rfl, rfl⟩
  · rintro ⟨h1, h2, h3⟩
    exact (handleSendMessage_run_starts o userInput hasImage st h1 h2 (by simp [h3])).2

/-- A benign concrete oracle for witnesses: every call succeeds. -/
def okOracle : Oracle := ⟨fun _ _ => ⟨str "ok", 5, none⟩, fun _ => false, true⟩

/-- C6 witness: an attachment with empty text does start a run. -/
theorem C6_witness :
    ∃ rest, (handleSendMessage okOracle (str "") true initialAppState).state.messages =
      initialAppState.messages ++ ⟨str "", MessageSender.User, MessagePurpose.UserInput,
        none, true⟩ :: rest :=
  (C6_send_guard okOracle (str "") true initialAppState).2 ⟨rfl, rfl, rfl⟩

/-- C6 counterexample to the claim as frozen: with the credentials-missing flag
set (no run active, non-blank text), the entry point is still a no-op, so
"no-op exactly when a run is active or the input is empty" fails. -/
theorem C6_counterexample :
    (handleSendMessage okOracle (str "hi") false
        { initialAppState with isApiKeyMissing := true }).outcome = RunOutcome.rejected ∧
    (handleSendMessage okOracle (str "hi") false
        { initialAppState with isApiKeyMissing := true }).state =
      { initialAppState with isApiKeyMissing := true } ∧
    ({ initialAppState with isApiKeyMissing := true } : AppState).isLoading = false ∧
    trim (str "hi") ≠ [] := by
  decide

/-! ## Call counting under a quiet oracle (no cancellation, no errors) -/

theorem museProcess_next_fixed (ctx : RunCtx) (s1 : LoopSt) (r : GenResult)
    (hc : ctx.o.cancel s1.callIdx = false) (he : r.error = none)
    (hm : ctx.mode = DiscussionMode.FixedTurns) :
    ∃ s2, museProcess ctx s1 r = (s2, .next) ∧ s2.callIdx = s1.callIdx := by
  unfold museProcess
  rw [if_neg (by simp [hc]), he]
  dsimp only
  rw [if_neg (by simp [hm])]
  exact ⟨_, rfl, rfl⟩

theorem museTurn_fixed (ctx : RunCtx) (s : LoopSt)
    (hc : ctx.o.cancel (s.callIdx + 1) = false)
    (he : ∀ p, (ctx.o.resp s.callIdx p).error = none)
    (hm : ctx.mode = DiscussionMode.FixedTurns) :
    ∃ s1, museTurn ctx s = (s1, .next) ∧ s1.callIdx = s.callIdx + 1 := by
  unfold museTurn
  obtain ⟨s2, heq, hcnt⟩ := museProcess_next_fixed ctx (bumpCall (museStatus ctx s))
    (ctx.o.resp (museStatus ctx s).callIdx (musePromptOf ctx (museStatus ctx s)))
    (by exact hc) (he _) hm
  exact ⟨s2, heq, hcnt⟩

theorem cognitoProcess_next_fixed (ctx : RunCtx) (s1 : LoopSt) (r : GenResult)
    (hc : ctx.o.cancel s1.callIdx = false) (he : r.error = none)
    (hm : ctx.mode = DiscussionMode.FixedTurns) :
    ∃ s2, cognitoProcess ctx s1 r = (s2, .next) ∧ s2.callIdx = s1.callIdx := by
  unfold cognitoProcess
  rw [if_neg (by simp [hc]), he]
  dsimp only
  rw [if_neg (by simp [hm])]
  exact ⟨_, rfl, rfl⟩

theorem cognitoReplyTurn_fixed (ctx : RunCtx) (s : LoopSt)
    (hc : ctx.o.cancel (s.callIdx + 1) = false)
    (he : ∀ p, (ctx.o.resp s.callIdx p).error = none)
    (hm : ctx.mode = DiscussionMode.FixedTurns) :
    ∃ s1, cognitoReplyTurn ctx s = (s1, .next) ∧ s1.callIdx = s.callIdx + 1 := by
  unfold cognitoReplyTurn
  obtain ⟨s2, heq, hcnt⟩ := cognitoProcess_next_fixed ctx (bumpCall (cognitoStatus ctx s))
    (ctx.o.resp (cognitoStatus ctx s).callIdx (cognitoReplyPromptOf ctx (cognitoStatus ctx s)))
    (by exact hc) (he _) hm
  exact ⟨s2, heq, hcnt⟩

theorem initialProcess_next (ctx : RunCtx) (s1 : LoopSt) (r : GenResult)
    (hc : ctx.o.cancel s1.callIdx = false) (he : r.error = none) :
    ∃ s2, initialProcess ctx s1 r = (s2, .next) ∧ s2.callIdx = s1.callIdx := by
  unfold initialProcess
  rw [if_neg (by simp [hc]), he]
  dsimp only
  exact ⟨_, rfl, rfl⟩

theorem initialTurn_ok (ctx : RunCtx) (s : LoopSt)
    (hc : ctx.o.cancel (s.callIdx + 1) = false)
    (he : ∀ p, (ctx.o.resp s.callIdx p).error = none) :
    ∃ s1, initialTurn ctx s = (s1, .next) ∧ s1.callIdx = s.callIdx + 1 := by
  unfold initialTurn
  obtain ⟨s2, heq, hcnt⟩ := initialProcess_next ctx (bumpCall (initialStatus ctx s))
    (ctx.o.resp (initialStatus ctx s).callIdx
      (cognitoInitialPromptOf ctx (initialStatus ctx s).st.notepadContent))
    (by exact hc) (he _)
  exact ⟨s2, heq, hcnt⟩

theorem finalProcess_next (ctx : RunCtx) (s1 : LoopSt) (r : GenResult)
    (hc : ctx.o.cancel s1.callIdx = false) (he : r.error = none) :
    ∃ s2, finalProcess ctx s1 r = (s2, .next) ∧ s2.callIdx = s1.callIdx := by
  unfold finalProcess
  rw [if_neg (by simp [hc]), he]
  dsimp only
  exact ⟨_, rfl, rfl⟩

theorem finalTurn_ok (ctx : RunCtx) (s : LoopSt)
    (hc : ctx.o.cancel (s.callIdx + 1) = false)
    (he : ∀ p, (ctx.o.resp s.callIdx p).error = none) :
    ∃ s1, finalTurn ctx s = (s1, .next) ∧ s1.callIdx = s.callIdx + 1 := by
  unfold finalTurn
  obtain ⟨s2, heq, hcnt⟩ := finalProcess_next ctx (bumpCall (finalStatus ctx s))
    (ctx.o.resp (finalStatus ctx s).callIdx (finalAnswerPromptOf ctx (finalStatus ctx s)))
    (by exact hc) (he _)
  exact ⟨s2, heq, hcnt⟩

/-- In `FixedTurns` mode under a quiet oracle, a loop of `n ≥ 1` remaining
turns finishes normally after exactly `2n - 1` further calls (the last
iteration breaks after its Muse call). -/
theorem discussionLoop_fixed_calls (ctx : RunCtx)
    (hC : ∀ k, ctx.o.cancel k = false)
    (hE : ∀ k p, (ctx.o.resp k p).error = none)
    (hm : ctx.mode = DiscussionMode.FixedTurns) :
    ∀ n s, 1 ≤ n → ∃ s', discussionLoop ctx n s = (s', .finished) ∧
      s'.callIdx = s.callIdx + (2 * n - 1) := by
  intro n
  induction n with
  | zero => intro s h; omega
  | succ n ih =>
    intro s _
    rw [discussionLoop, if_neg (by simp [hC])]
    obtain ⟨s1, hms, hcnt⟩ := museTurn_fixed ctx s (hC _) (fun p => hE _ p) hm
    rw [hms]
    dsimp only
    cases n with
    | zero =>
      rw [if_pos ⟨hm, rfl⟩]
      exact ⟨s1, rfl, by omega⟩
    | succ m =>
      rw [if_neg (by simp), if_neg (by simp [hC])]
      obtain ⟨s2, hcs, hcnt2⟩ := cognitoReplyTurn_fixed ctx s1 (hC _) (fun p => hE _ p) hm
      rw [hcs]
      dsimp only
      rw [if_neg (by simp [hm])]
      obtain ⟨s', hloop, hcnt3⟩ := ih s2 (by omega)
      exact ⟨s', hloop, by omega⟩

theorem finalizeRun_calls (s : LoopSt) (oc : RunOutcome) :
    (finalizeRun s oc).calls = s.callIdx := rfl

/-- `runAfterImage` in `FixedTurns` mode with budget `N ≥ 1` under a quiet
oracle completes after exactly `2N + 1` calls. -/
theorem runAfterImage_fixed (ctx : RunCtx) (st2 : AppState)
    (hC : ∀ k, ctx.o.cancel k = false)
    (hE : ∀ k p, (ctx.o.resp k p).error = none)
    (hm : ctx.mode = DiscussionMode.FixedTurns)
    (hN : 1 ≤ ctx.manualFixedTurns) :
    (runAfterImage ctx st2).outcome = RunOutcome.completed ∧
    (runAfterImage ctx st2).calls = 2 * ctx.manualFixedTurns + 1 := by
  unfold runAfterImage
  obtain ⟨s2, hin, hcnt⟩ := initialTurn_ok ctx ⟨st2, [], [], false, 0, [], []⟩
    (hC _) (fun p => hE _ p)
  rw [hin]
  dsimp only
  have hmax : maxTurnsForLoop ctx.mode ctx.manualFixedTurns = ctx.manualFixedTurns := by
    rw [maxTurnsForLoop, if_neg (by simp [hm])]
  obtain ⟨s3, hloop, hcnt3⟩ := discussionLoop_fixed_calls ctx hC hE hm
    (maxTurnsForLoop ctx.mode ctx.manualFixedTurns) s2 (by omega)
  rw [hloop]
  dsimp only
  rw [if_neg (by simp [hC])]
  obtain ⟨s5, hfin, hcnt5⟩ := finalTurn_ok ctx s3 (hC _) (fun p => hE _ p)
  rw [hfin]
  dsimp only
  refine ⟨rfl, ?_⟩
  rw [finalizeRun_calls]
  rw [hmax] at hcnt3
  have hs2 : s2.callIdx = 1 := hcnt
  omega

/-! ## Claim C3 -/

/-- C3 (confirmed): in `FixedTurns` mode with configured budget `N ≥ 1`, every
run that starts normally (guards pass, attachment conversion succeeds), is
never cancelled and meets no gateway error performs exactly `2N + 1` gateway
calls — `N` exchange pairs plus one final synthesis call — and completes. -/
theorem C3_fixed_turns_call_count (o : Oracle) (userInput : List Char) (hasImage : Bool)
    (st : AppState)
    (hmode : st.discussionMode = DiscussionMode.FixedTurns)
    (hN : 1 ≤ st.manualFixedTurns)
    (h1 : st.isApiKeyMissing = false) (h2 : st.isLoading = false)
    (h3 : ¬(trim userInput = [] ∧ hasImage = false))
    (himg : hasImage = false ∨ o.imageOk = true)
    (hC : ∀ k, o.cancel k = false)
    (hE : ∀ k p, (o.resp k p).error = none) :
    (handleSendMessage o userInput hasImage st).outcome = RunOutcome.completed ∧
    (handleSendMessage o userInput hasImage st).calls = 2 * st.manualFixedTurns + 1 := by
  unfold handleSendMessage
  rw [if_neg (by simp [h1, h2]), if_neg h3]
  dsimp only
  rw [if_neg (by rcases himg with h | h <;> simp [h])]
  exact runAfterImage_fixed ⟨o, userInput, hasImage,
    (currentModelDetails st.selectedModelApiName).name, st.discussionMode,
    st.manualFixedTurns⟩ _ hC hE hmode hN

/-- C3 witness: with the default budget `N = 2` a quiet run makes exactly five
gateway calls. -/
theorem C3_witness :
    (handleSendMessage okOracle (str "2+2?") false initialAppState).outcome =
      RunOutcome.completed ∧
    (handleSendMessage okOracle (str "2+2?") false initialAppState).calls =
      2 * initialAppState.manualFixedTurns + 1 :=
  C3_fixed_turns_call_count okOracle (str "2+2?") false initialAppState rfl
    (by decide) rfl rfl (by decide) (Or.inr rfl) (fun _ => rfl) (fun _ _ => rfl)

/-! ## Claim C1: agreement-driven termination -/

/-- In `AgreementDriven` mode, a resolved Muse call under no cancellation and
no error commits the turn, appends the turn's stop signal to the trace, leaves
the pending-agreement flag equal to that signal, and breaks the loop exactly
when both the incoming flag and the new signal are set. -/
theorem museProcess_ai (ctx : RunCtx) (s1 : LoopSt) (r : GenResult)
    (hc : ctx.o.cancel s1.callIdx = false) (he : r.error = none)
    (hm : ctx.mode = DiscussionMode.AiDriven) :
    ∃ s2, museProcess ctx s1 r =
        (s2, if s1.previousAISignaledStop && (parseAIResponse r.text).discussionShouldEnd
          then TurnStep.broke else TurnStep.next) ∧
      s2.callIdx = s1.callIdx ∧
      s2.sigs = s1.sigs ++ [(parseAIResponse r.text).discussionShouldEnd] ∧
      s2.previousAISignaledStop = (parseAIResponse r.text).discussionShouldEnd := by
  unfold museProcess
  rw [if_neg (by simp [hc]), he]
  dsimp only
  rw [if_pos hm]
  by_cases hb : (parseAIResponse r.text).discussionShouldEnd = true
  · rw [if_pos hb]
    by_cases hp : s1.previousAISignaledStop = true
    · rw [if_pos hp, hp, hb]
      exact ⟨_, rfl, rfl, rfl, rfl⟩
    · rw [if_neg hp, hb]
      simp only [Bool.and_true]
      rw [if_neg hp]
      exact ⟨_, rfl, rfl, rfl, rfl⟩
  · have hb' : (parseAIResponse r.text).discussionShouldEnd = false := by simpa using hb
    rw [if_neg hb, hb']
    simp only [Bool.and_false]
    refine ⟨_, rfl, ?_, ?_, ?_⟩ <;> rfl

/-- `museProcess_ai` lifted to the full Muse turn. -/
theorem museTurn_ai (ctx : RunCtx) (s : LoopSt)
    (hc : ctx.o.cancel (s.callIdx + 1) = false)
    (he : ∀ p, (ctx.o.resp s.callIdx p).error = none)
    (hm : ctx.mode = DiscussionMode.AiDriven) :
    ∃ s1 b, museTurn ctx s =
        (s1, if s.previousAISignaledStop && b then TurnStep.broke else TurnStep.next) ∧
      s1.callIdx = s.callIdx + 1 ∧ s1.sigs = s.sigs ++ [b] ∧
      s1.previousAISignaledStop = b := by
  unfold museTurn
  obtain ⟨s2, heq, hcnt, hsig, hprev⟩ := museProcess_ai ctx (bumpCall (museStatus ctx s))
    (ctx.o.resp (museStatus ctx s).callIdx (musePromptOf ctx (museStatus ctx s)))
    (by exact hc) (he _) hm
  exact ⟨s2, _, heq, hcnt, hsig, hprev⟩

/-- In `AgreementDriven` mode, a resolved Cognito reply call under no
cancellation and no error, symmetrically to `museProcess_ai`. -/
theorem cognitoProcess_ai (ctx : RunCtx) (s1 : LoopSt) (r : GenResult)
    (hc : ctx.o.cancel s1.callIdx = false) (he : r.error = none)
    (hm : ctx.mode = DiscussionMode.AiDriven) :
    ∃ s2, cognitoProcess ctx s1 r =
        (s2, if s1.previousAISignaledStop && (parseAIResponse r.text).discussionShouldEnd
          then TurnStep.broke else TurnStep.next) ∧
      s2.callIdx = s1.callIdx ∧
      s2.sigs = s1.sigs ++ [(parseAIResponse r.text).discussionShouldEnd] ∧
      s2.previousAISignaledStop = (parseAIResponse r.text).discussionShouldEnd := by
  unfold cognitoProcess
  rw [if_neg (by simp [hc]), he]
  dsimp only
  rw [if_pos hm]
  by_cases hb : (parseAIResponse r.text).discussionShouldEnd = true
  · rw [if_pos hb]
    by_cases hp : s1.previousAISignaledStop = true
    · rw [if_pos hp, hp, hb]
      exact ⟨_, rfl, rfl, rfl, rfl⟩
    · rw [if_neg hp, hb]
      simp only [Bool.and_true]
      rw [if_neg hp]
      exact ⟨_, rfl, rfl, rfl, rfl⟩
  · have hb' : (parseAIResponse r.text).discussionShouldEnd = false := by simpa using hb
    rw [if_neg hb, hb']
    simp only [Bool.and_false]
    refine ⟨_, rfl, ?_, ?_, ?_⟩ <;> rfl

/-- `cognitoProcess_ai` lifted to the full Cognito reply turn. -/
theorem cognitoReplyTurn_ai (ctx : RunCtx) (s : LoopSt)
    (hc : ctx.o.cancel (s.callIdx + 1) = false)
    (he : ∀ p, (ctx.o.resp s.callIdx p).error = none)
    (hm : ctx.mode = DiscussionMode.AiDriven) :
    ∃ s1 b, cognitoReplyTurn ctx s =
        (s1, if s.previousAISignaledStop && b then TurnStep.broke else TurnStep.next) ∧
      s1.callIdx = s.callIdx + 1 ∧ s1.sigs = s.sigs ++ [b] ∧
      s1.previousAISignaledStop = b := by
  unfold cognitoReplyTurn
  obtain ⟨s2, heq, hcnt, hsig, hprev⟩ := cognitoProcess_ai ctx (bumpCall (cognitoStatus ctx s))
    (ctx.o.resp (cognitoStatus ctx s).callIdx (cognitoReplyPromptOf ctx (cognitoStatus ctx s)))
    (by exact hc) (he _) hm
  exact ⟨s2, _, heq, hcnt, hsig, hprev⟩

/-- In `AgreementDriven` mode, the resolved initial Cognito call seeds the
trace with the opening turn's stop signal and the pending flag with the same
value. -/
theorem initialProcess_ai (ctx : RunCtx) (s1 : LoopSt) (r : GenResult)
    (hc : ctx.o.cancel s1.callIdx = false) (he : r.error = none)
    (hm : ctx.mode = DiscussionMode.AiDriven) :
    ∃ s2, initialProcess ctx s1 r = (s2, TurnStep.next) ∧
      s2.callIdx = s1.callIdx ∧
      s2.sigs = [(parseAIResponse r.text).discussionShouldEnd] ∧
      s2.previousAISignaledStop = (parseAIResponse r.text).discussionShouldEnd := by
  unfold initialProcess
  rw [if_neg (by simp [hc]), he]
  dsimp only
  rw [if_pos hm]
  exact ⟨_, rfl, rfl, rfl, rfl⟩

/-- `initialProcess_ai` lifted to the full initial turn. -/
theorem initialTurn_ai (ctx : RunCtx) (s : LoopSt)
    (hc : ctx.o.cancel (s.callIdx + 1) = false)
    (he : ∀ p, (ctx.o.resp s.callIdx p).error = none)
    (hm : ctx.mode = DiscussionMode.AiDriven) :
    ∃ s1 b, initialTurn ctx s = (s1, TurnStep.next) ∧
      s1.callIdx = s.callIdx + 1 ∧ s1.sigs = [b] ∧
      s1.previousAISignaledStop = b := by
  unfold initialTurn
  obtain ⟨s2, heq, hcnt, hsig, hprev⟩ := initialProcess_ai ctx (bumpCall (initialStatus ctx s))
    (ctx.o.resp (initialStatus ctx s).callIdx
      (cognitoInitialPromptOf ctx (initialStatus ctx s).st.notepadContent))
    (by exact hc) (he _) hm
  exact ⟨s2, _, heq, hcnt, hsig, hprev⟩

/-- In `AgreementDriven` mode under a quiet oracle the discussion loop always
finishes; the stop signals `Δ` of its turns extend the trace one gateway call
per turn, two consecutive set signals occur at most as the final two entries of
`prev :: Δ` (where they break the loop at once), and the loop ends before its
turn budget only by such a final consecutive pair. -/
theorem discussionLoop_ai (ctx : RunCtx)
    (hC : ∀ k, ctx.o.cancel k = false)
    (hE : ∀ k p, (ctx.o.resp k p).error = none)
    (hm : ctx.mode = DiscussionMode.AiDriven) :
    ∀ n s, ∃ s' Δ, discussionLoop ctx n s = (s', LoopExit.finished) ∧
      s'.sigs = s.sigs ++ Δ ∧
      s'.callIdx = s.callIdx + Δ.length ∧
      Δ.length ≤ 2 * n ∧
      (Δ.length = 0 → n = 0) ∧
      (∀ i, i + 2 < Δ.length + 1 →
        ¬((s.previousAISignaledStop :: Δ).getD i false = true ∧
          (s.previousAISignaledStop :: Δ).getD (i + 1) false = true)) ∧
      (Δ.length < 2 * n →
        (s.previousAISignaledStop :: Δ).getD (Δ.length - 1) false = true ∧
        (s.previousAISignaledStop :: Δ).getD Δ.length false = true) := by
  intro n
  induction n with
  | zero =>
    intro s
    refine ⟨s, [], rfl, by simp, rfl, by simp, fun _ => rfl, ?_, ?_⟩
    · intro i h
      simp only [List.length_nil] at h
      omega
    · intro h
      simp only [List.length_nil] at h
      omega
  | succ n ih =>
    intro s
    rw [discussionLoop, if_neg (by simp [hC])]
    obtain ⟨s1, b1, hms, hc1, hs1, hp1⟩ := museTurn_ai ctx s (hC _) (fun p => hE _ p) hm
    rw [hms]
    by_cases hb : (s.previousAISignaledStop && b1) = true
    · rw [if_pos hb]
      dsimp only
      obtain ⟨hpv, hbv⟩ : s.previousAISignaledStop = true ∧ b1 = true := by simpa using hb
      refine ⟨s1, [b1], rfl, hs1, hc1, by show 1 ≤ 2 * (n + 1); omega,
        fun h => absurd h (by simp), ?_, fun _ => ?_⟩
      · intro i h
        simp only [List.length_cons, List.length_nil] at h
        omega
      · simp [hpv, hbv]
    · rw [if_neg hb]
      dsimp only
      rw [if_neg (by simp [hm]), if_neg (by simp [hC])]
      obtain ⟨s2, b2, hcs, hc2, hs2, hp2⟩ := cognitoReplyTurn_ai ctx s1 (hC _)
        (fun p => hE _ p) hm
      rw [hcs]
      by_cases hb2 : (s1.previousAISignaledStop && b2) = true
      · rw [if_pos hb2]
        dsimp only
        obtain ⟨hpv2, hbv2⟩ : s1.previousAISignaledStop = true ∧ b2 = true := by
          simpa using hb2
        rw [hp1] at hpv2
        refine ⟨s2, [b1, b2], rfl, ?_, ?_, by show 2 ≤ 2 * (n + 1); omega,
          fun h => absurd h (by simp), ?_, fun _ => ?_⟩
        · rw [hs2, hs1, List.append_assoc]
          rfl
        · rw [hc2, hc1]
          rfl
        · intro i hi
          have hlen : List.length [b1, b2] = 2 := rfl
          have h0 : i = 0 := by omega
          subst h0
          simp only [List.getD_cons_zero, List.getD_cons_succ]
          exact fun hq => hb (by simp [hq.1, hq.2])
        · simp [hpv2, hbv2]
      · rw [if_neg hb2]
        dsimp only
        obtain ⟨s', Δ', hloop, hsig', hcall', hbound', hnz', hint', hearly'⟩ :=
          ih (if n = 0 ∧ ctx.mode = DiscussionMode.AiDriven then
            { s2 with st := addSysMessage s2.st maxTurnsReachedText } else s2)
        rw [hloop]
        have hsig3 : (if n = 0 ∧ ctx.mode = DiscussionMode.AiDriven then
            { s2 with st := addSysMessage s2.st maxTurnsReachedText } else s2).sigs
              = s2.sigs := by
          split <;> rfl
        have hcall3 : (if n = 0 ∧ ctx.mode = DiscussionMode.AiDriven then
            { s2 with st := addSysMessage s2.st maxTurnsReachedText } else s2).callIdx
              = s2.callIdx := by
          split <;> rfl
        have hprev3 : (if n = 0 ∧ ctx.mode = DiscussionMode.AiDriven then
            { s2 with st := addSysMessage s2.st maxTurnsReachedText } else s2
              ).previousAISignaledStop = s2.previousAISignaledStop := by
          split <;> rfl
        rw [hsig3] at hsig'
        rw [hcall3] at hcall'
        rw [hprev3, hp2] at hint' hearly'
        refine ⟨s', b1 :: b2 :: Δ', rfl, ?_, ?_, ?_, ?_, ?_, ?_⟩
        · rw [hsig', hs2, hs1]
          simp [List.append_assoc]
        · rw [hcall', hc2, hc1]
          simp only [List.length_cons]
          omega
        · simp only [List.length_cons]
          omega
        · intro h
          simp only [List.length_cons] at h
          omega
        · intro i hi
          simp only [List.length_cons] at hi
          rcases i with _ | _ | j
          · simp only [List.getD_cons_zero, List.getD_cons_succ]
            exact fun hq => hb (by simp [hq.1, hq.2])
          · simp only [List.getD_cons_zero, List.getD_cons_succ]
            exact fun hq => hb2 (by rw [hp1]; simp [hq.1, hq.2])
          · exact hint' j (by omega)
        · intro hlt
          simp only [List.length_cons] at hlt ⊢
          have hlt' : Δ'.length < 2 * n := by omega
          have hΔpos : 1 ≤ Δ'.length := by
            by_contra hcon
            have h0 : Δ'.length = 0 := by omega
            have hn0 : n = 0 := hnz' h0
            omega
          obtain ⟨he1, he2⟩ := hearly' hlt'
          constructor
          · have hidx : Δ'.length + 1 + 1 - 1 = Δ'.length - 1 + 1 + 1 := by omega
            rw [hidx, List.getD_cons_succ, List.getD_cons_succ]
            exact he1
          · rw [List.getD_cons_succ, List.getD_cons_succ]
            exact he2

theorem finalizeRun_sigs (s : LoopSt) (oc : RunOutcome) :
    (finalizeRun s oc).sigs = s.sigs := rfl

theorem finalProcess_sigs_next (ctx : RunCtx) (s1 : LoopSt) (r : GenResult)
    (hc : ctx.o.cancel s1.callIdx = false) (he : r.error = none) :
    ∃ s2, finalProcess ctx s1 r = (s2, TurnStep.next) ∧ s2.callIdx = s1.callIdx ∧
      s2.sigs = s1.sigs := by
  unfold finalProcess
  rw [if_neg (by simp [hc]), he]
  dsimp only
  exact ⟨_, rfl, rfl, rfl⟩

theorem finalTurn_sigs_ok (ctx : RunCtx) (s : LoopSt)
    (hc : ctx.o.cancel (s.callIdx + 1) = false)
    (he : ∀ p, (ctx.o.resp s.callIdx p).error = none) :
    ∃ s1, finalTurn ctx s = (s1, TurnStep.next) ∧ s1.callIdx = s.callIdx + 1 ∧
      s1.sigs = s.sigs := by
  unfold finalTurn
  obtain ⟨s2, heq, hcnt, hsig⟩ := finalProcess_sigs_next ctx (bumpCall (finalStatus ctx s))
    (ctx.o.resp (finalStatus ctx s).callIdx (finalAnswerPromptOf ctx (finalStatus ctx s)))
    (by exact hc) (he _)
  exact ⟨s2, heq, hcnt, hsig⟩

/-- `runAfterImage` in `AgreementDriven` mode under a quiet oracle: the run
completes, makes one gateway call per recorded signal plus the final synthesis
call, records between 1 and 7 signals, never continues past two consecutive
set signals, and ends before the cap only on two consecutive set signals. -/
theorem runAfterImage_ai (ctx : RunCtx) (st2 : AppState)
    (hC : ∀ k, ctx.o.cancel k = false)
    (hE : ∀ k p, (ctx.o.resp k p).error = none)
    (hm : ctx.mode = DiscussionMode.AiDriven) :
    (runAfterImage ctx st2).outcome = RunOutcome.completed ∧
    (runAfterImage ctx st2).calls = (runAfterImage ctx st2).sigs.length + 1 ∧
    1 ≤ (runAfterImage ctx st2).sigs.length ∧
    (runAfterImage ctx st2).sigs.length ≤
      2 * MAX_AI_DRIVEN_DISCUSSION_TURNS_PER_MODEL + 1 ∧
    (∀ i, i + 2 < (runAfterImage ctx st2).sigs.length →
      ¬((runAfterImage ctx st2).sigs.getD i false = true ∧
        (runAfterImage ctx st2).sigs.getD (i + 1) false = true)) ∧
    ((runAfterImage ctx st2).sigs.length <
        2 * MAX_AI_DRIVEN_DISCUSSION_TURNS_PER_MODEL + 1 →
      (runAfterImage ctx st2).sigs.getD ((runAfterImage ctx st2).sigs.length - 2)
          false = true ∧
      (runAfterImage ctx st2).sigs.getD ((runAfterImage ctx st2).sigs.length - 1)
          false = true) := by
  unfold runAfterImage
  obtain ⟨s2, b0, hin, hcnt, hsg2, hpv2⟩ := initialTurn_ai ctx ⟨st2, [], [], false, 0, [], []⟩
    (hC _) (fun p => hE _ p) hm
  rw [hin]
  dsimp only
  have hmax : maxTurnsForLoop ctx.mode ctx.manualFixedTurns = 3 := by
    rw [maxTurnsForLoop, if_pos hm]
    rfl
  obtain ⟨s3, Δ, hloop, hsg3, hcall3, hbound, hnz, hint, hearly⟩ :=
    discussionLoop_ai ctx hC hE hm (maxTurnsForLoop ctx.mode ctx.manualFixedTurns) s2
  rw [hloop]
  dsimp only
  rw [if_neg (by simp [hC])]
  obtain ⟨s5, hfin, hcnt5, hsg5⟩ := finalTurn_sigs_ok ctx s3 (hC _) (fun p => hE _ p)
  rw [hfin]
  dsimp only
  have hMval : MAX_AI_DRIVEN_DISCUSSION_TURNS_PER_MODEL = 3 := rfl
  have hsig : s5.sigs = b0 :: Δ := by
    rw [hsg5, hsg3, hsg2]
    rfl
  have hs2c : s2.callIdx = 1 := hcnt
  have hcalls : s5.callIdx = Δ.length + 2 := by
    rw [hcnt5, hcall3, hs2c]
    omega
  rw [hmax] at hbound
  rw [hpv2] at hint hearly
  refine ⟨rfl, ?_, ?_, ?_, ?_, ?_⟩
  · rw [finalizeRun_calls, finalizeRun_sigs, hsig, hcalls]
    simp only [List.length_cons]
  · rw [finalizeRun_sigs, hsig]
    simp
  · rw [finalizeRun_sigs, hsig, hMval]
    simp only [List.length_cons]
    omega
  · rw [finalizeRun_sigs, hsig]
    intro i hi
    simp only [List.length_cons] at hi
    exact hint i (by omega)
  · rw [finalizeRun_sigs, hsig, hMval]
    intro hlt
    simp only [List.length_cons] at hlt ⊢
    rw [hmax] at hearly
    obtain ⟨he1, he2⟩ := hearly (by omega)
    constructor
    · have hi1 : Δ.length + 1 - 2 = Δ.length - 1 := by omega
      rw [hi1]
      exact he1
    · have hi2 : Δ.length + 1 - 1 = Δ.length := by omega
      rw [hi2]
      exact he2

/-- C1 (confirmed): in `AgreementDriven` mode, for every run that starts
normally under a quiet oracle, the trace of per-turn stop signals
(`.sigs`, one entry per discussion-phase gateway call, oldest first) shows
that the debate ends early by agreement only via two consecutive signalling
turns: no two consecutive set signals ever occur except as the final two
entries (a single signal, or a signal followed by a clearing turn, never
terminates), and whenever the loop ends before its 7-call cap the final two
entries are both set. -/
theorem C1_agreement_termination (o : Oracle) (userInput : List Char) (hasImage : Bool)
    (st : AppState)
    (hmode : st.discussionMode = DiscussionMode.AiDriven)
    (h1 : st.isApiKeyMissing = false) (h2 : st.isLoading = false)
    (h3 : ¬(trim userInput = [] ∧ hasImage = false))
    (himg : hasImage = false ∨ o.imageOk = true)
    (hC : ∀ k, o.cancel k = false)
    (hE : ∀ k p, (o.resp k p).error = none) :
    (handleSendMessage o userInput hasImage st).outcome = RunOutcome.completed ∧
    (handleSendMessage o userInput hasImage st).calls =
      (handleSendMessage o userInput hasImage st).sigs.length + 1 ∧
    1 ≤ (handleSendMessage o userInput hasImage st).sigs.length ∧
    (handleSendMessage o userInput hasImage st).sigs.length ≤
      2 * MAX_AI_DRIVEN_DISCUSSION_TURNS_PER_MODEL + 1 ∧
    (∀ i, i + 2 < (handleSendMessage o userInput hasImage st).sigs.length →
      ¬((handleSendMessage o userInput hasImage st).sigs.getD i false = true ∧
        (handleSendMessage o userInput hasImage st).sigs.getD (i + 1) false = true)) ∧
    ((handleSendMessage o userInput hasImage st).sigs.length <
        2 * MAX_AI_DRIVEN_DISCUSSION_TURNS_PER_MODEL + 1 →
      (handleSendMessage o userInput hasImage st).sigs.getD
        ((handleSendMessage o userInput hasImage st).sigs.length - 2) false = true ∧
      (handleSendMessage o userInput hasImage st).sigs.getD
        ((handleSendMessage o userInput hasImage st).sigs.length - 1) false = true) := by
  unfold handleSendMessage
  rw [if_neg (by simp [h1, h2]), if_neg h3]
  dsimp only
  rw [if_neg (by rcases himg with h | h <;> simp [h])]
  exact runAfterImage_ai ⟨o, userInput, hasImage,
    (currentModelDetails st.selectedModelApiName).name, st.discussionMode,
    st.manualFixedTurns⟩ _ hC hE hmode

/-- Oracle for the C1 witness: the Muse turn of pair 1 signals stop, Cognito
does not follow up, then both turns of pair 2 signal stop. -/
def c1Oracle : Oracle :=
  ⟨fun k _ => ⟨if k = 1 ∨ k = 3 ∨ k = 4 then str "同意。" ++ DISCUSSION_COMPLETE_TAG
      else str "继续讨论。", 5, none⟩,
    fun _ => false, true⟩

def c1State : AppState := { initialAppState with discussionMode := DiscussionMode.AiDriven }

/-- C1 witness: on the scenario above the run completes with the agreement
discipline of `C1_agreement_termination`. -/
theorem C1_witness :
    (handleSendMessage c1Oracle (str "你好") false c1State).outcome = RunOutcome.completed ∧
    (handleSendMessage c1Oracle (str "你好") false c1State).calls =
      (handleSendMessage c1Oracle (str "你好") false c1State).sigs.length + 1 ∧
    1 ≤ (handleSendMessage c1Oracle (str "你好") false c1State).sigs.length ∧
    (handleSendMessage c1Oracle (str "你好") false c1State).sigs.length ≤
      2 * MAX_AI_DRIVEN_DISCUSSION_TURNS_PER_MODEL + 1 ∧
    (∀ i, i + 2 < (handleSendMessage c1Oracle (str "你好") false c1State).sigs.length →
      ¬((handleSendMessage c1Oracle (str "你好") false c1State).sigs.getD i false = true ∧
        (handleSendMessage c1Oracle (str "你好") false c1State).sigs.getD (i + 1) false
          = true)) ∧
    ((handleSendMessage c1Oracle (str "你好") false c1State).sigs.length <
        2 * MAX_AI_DRIVEN_DISCUSSION_TURNS_PER_MODEL + 1 →
      (handleSendMessage c1Oracle (str "你好") false c1State).sigs.getD
        ((handleSendMessage c1Oracle (str "你好") false c1State).sigs.length - 2) false
          = true ∧
      (handleSendMessage c1Oracle (str "你好") false c1State).sigs.getD
        ((handleSendMessage c1Oracle (str "你好") false c1State).sigs.length - 1) false
          = true) :=
  C1_agreement_termination c1Oracle (str "你好") false c1State rfl rfl rfl
    (by decide) (Or.inl rfl) (fun _ => rfl) (fun _ _ => rfl)

/-! ## Claim C2: cancellation mid-call -/

/-- A Muse turn whose gateway call resolves with the cancellation flag set
commits nothing: the turn exits cancelled in the exact state snapshotted at
issuance. -/
theorem museTurn_cancelled (ctx : RunCtx) (s : LoopSt)
    (hc : ctx.o.cancel (s.callIdx + 1) = true) :
    museTurn ctx s = (bumpCall (museStatus ctx s), .exited .cancelled) := by
  unfold museTurn museProcess
  rw [if_pos (show ctx.o.cancel (bumpCall (museStatus ctx s)).callIdx = true from hc)]

theorem cognitoReplyTurn_cancelled (ctx : RunCtx) (s : LoopSt)
    (hc : ctx.o.cancel (s.callIdx + 1) = true) :
    cognitoReplyTurn ctx s = (bumpCall (cognitoStatus ctx s), .exited .cancelled) := by
  unfold cognitoReplyTurn cognitoProcess
  rw [if_pos (show ctx.o.cancel (bumpCall (cognitoStatus ctx s)).callIdx = true from hc)]

theorem initialTurn_cancelled (ctx : RunCtx) (s : LoopSt)
    (hc : ctx.o.cancel (s.callIdx + 1) = true) :
    initialTurn ctx s = (bumpCall (initialStatus ctx s), .exited .cancelled) := by
  unfold initialTurn initialProcess
  rw [if_pos (show ctx.o.cancel (bumpCall (initialStatus ctx s)).callIdx = true from hc)]

theorem finalTurn_cancelled (ctx : RunCtx) (s : LoopSt)
    (hc : ctx.o.cancel (s.callIdx + 1) = true) :
    finalTurn ctx s = (bumpCall (finalStatus ctx s), .exited .cancelled) := by
  unfold finalTurn finalProcess
  rw [if_pos (show ctx.o.cancel (bumpCall (finalStatus ctx s)).callIdx = true from hc)]

/-- A resolved Muse call under no cancellation keeps the call counter and the
snapshot list, and steps with `next`, `broke`, or an error exit — never with a
cancellation or a premature finish. -/
theorem museProcess_cases (ctx : RunCtx) (s1 : LoopSt) (r : GenResult)
    (hc : ctx.o.cancel s1.callIdx = false) :
    ∃ s2 step, museProcess ctx s1 r = (s2, step) ∧ s2.callIdx = s1.callIdx ∧
      s2.snaps = s1.snaps ∧
      (step = TurnStep.next ∨ step = TurnStep.broke ∨
        ∃ m, step = TurnStep.exited (LoopExit.errored m)) := by
  unfold museProcess
  rw [if_neg (by simp [hc])]
  cases hre : r.error with
  | some e =>
    dsimp only
    by_cases hkk : hasSub API_KEY_INVALID_MARKER e = true
    · rw [if_pos hkk]
      exact ⟨_, _, rfl, rfl, rfl, Or.inr (Or.inr ⟨r.text, rfl⟩)⟩
    · rw [if_neg hkk]
      exact ⟨_, _, rfl, rfl, rfl, Or.inr (Or.inr ⟨r.text, rfl⟩)⟩
  | none =>
    dsimp only
    by_cases hm : ctx.mode = DiscussionMode.AiDriven
    · rw [if_pos hm]
      by_cases hbe : (parseAIResponse r.text).discussionShouldEnd = true
      · rw [if_pos hbe]
        by_cases hp : s1.previousAISignaledStop = true
        · rw [if_pos hp]
          exact ⟨_, _, rfl, rfl, rfl, Or.inr (Or.inl rfl)⟩
        · rw [if_neg hp]
          exact ⟨_, _, rfl, rfl, rfl, Or.inl rfl⟩
      · rw [if_neg hbe]
        exact ⟨_, _, rfl, rfl, rfl, Or.inl rfl⟩
    · rw [if_neg hm]
      exact ⟨_, _, rfl, rfl, rfl, Or.inl rfl⟩

theorem cognitoProcess_cases (ctx : RunCtx) (s1 : LoopSt) (r : GenResult)
    (hc : ctx.o.cancel s1.callIdx = false) :
    ∃ s2 step, cognitoProcess ctx s1 r = (s2, step) ∧ s2.callIdx = s1.callIdx ∧
      s2.snaps = s1.snaps ∧
      (step = TurnStep.next ∨ step = TurnStep.broke ∨
        ∃ m, step = TurnStep.exited (LoopExit.errored m)) := by
  unfold cognitoProcess
  rw [if_neg (by simp [hc])]
  cases hre : r.error with
  | some e =>
    dsimp only
    by_cases hkk : hasSub API_KEY_INVALID_MARKER e = true
    · rw [if_pos hkk]
      exact ⟨_, _, rfl, rfl, rfl, Or.inr (Or.inr ⟨r.text, rfl⟩)⟩
    · rw [if_neg hkk]
      exact ⟨_, _, rfl, rfl, rfl, Or.inr (Or.inr ⟨r.text, rfl⟩)⟩
  | none =>
    dsimp only
    by_cases hm : ctx.mode = DiscussionMode.AiDriven
    · rw [if_pos hm]
      by_cases hbe : (parseAIResponse r.text).discussionShouldEnd = true
      · rw [if_pos hbe]
        by_cases hp : s1.previousAISignaledStop = true
        · rw [if_pos hp]
          exact ⟨_, _, rfl, rfl, rfl, Or.inr (Or.inl rfl)⟩
        · rw [if_neg hp]
          exact ⟨_, _, rfl, rfl, rfl, Or.inl rfl⟩
      · rw [if_neg hbe]
        exact ⟨_, _, rfl, rfl, rfl, Or.inl rfl⟩
    · rw [if_neg hm]
      exact ⟨_, _, rfl, rfl, rfl, Or.inl rfl⟩

theorem initialProcess_cases (ctx : RunCtx) (s1 : LoopSt) (r : GenResult)
    (hc : ctx.o.cancel s1.callIdx = false) :
    ∃ s2 step, initialProcess ctx s1 r = (s2, step) ∧ s2.callIdx = s1.callIdx ∧
      s2.snaps = s1.snaps ∧
      (step = TurnStep.next ∨ step = TurnStep.broke ∨
        ∃ m, step = TurnStep.exited (LoopExit.errored m)) := by
  unfold initialProcess
  rw [if_neg (by simp [hc])]
  cases hre : r.error with
  | some e =>
    dsimp only
    by_cases hkk : hasSub API_KEY_INVALID_MARKER e = true
    · rw [if_pos hkk]
      exact ⟨_, _, rfl, rfl, rfl, Or.inr (Or.inr ⟨r.text, rfl⟩)⟩
    · rw [if_neg hkk]
      exact ⟨_, _, rfl, rfl, rfl, Or.inr (Or.inr ⟨r.text, rfl⟩)⟩
  | none =>
    dsimp only
    exact ⟨_, _, rfl, rfl, rfl, Or.inl rfl⟩

theorem finalProcess_cases (ctx : RunCtx) (s1 : LoopSt) (r : GenResult)
    (hc : ctx.o.cancel s1.callIdx = false) :
    ∃ s2 step, finalProcess ctx s1 r = (s2, step) ∧ s2.callIdx = s1.callIdx ∧
      s2.snaps = s1.snaps ∧
      (step = TurnStep.next ∨ step = TurnStep.broke ∨
        ∃ m, step = TurnStep.exited (LoopExit.errored m)) := by
  unfold finalProcess
  rw [if_neg (by simp [hc])]
  cases hre : r.error with
  | some e =>
    dsimp only
    by_cases hkk : hasSub API_KEY_INVALID_MARKER e = true
    · rw [if_pos hkk]
      exact ⟨_, _, rfl, rfl, rfl, Or.inr (Or.inr ⟨r.text, rfl⟩)⟩
    · rw [if_neg hkk]
      exact ⟨_, _, rfl, rfl, rfl, Or.inr (Or.inr ⟨r.text, rfl⟩)⟩
  | none =>
    dsimp only
    exact ⟨_, _, rfl, rfl, rfl, Or.inl rfl⟩

theorem museTurn_cases (ctx : RunCtx) (s : LoopSt)
    (hc : ctx.o.cancel (s.callIdx + 1) = false) :
    ∃ s1 step, museTurn ctx s = (s1, step) ∧ s1.callIdx = s.callIdx + 1 ∧
      s1.snaps = s.snaps ++ [snapOf (museStatus ctx s).st] ∧
      (step = TurnStep.next ∨ step = TurnStep.broke ∨
        ∃ m, step = TurnStep.exited (LoopExit.errored m)) := by
  unfold museTurn
  obtain ⟨s2, step, heq, hcnt, hsn, hst⟩ := museProcess_cases ctx
    (bumpCall (museStatus ctx s))
    (ctx.o.resp (museStatus ctx s).callIdx (musePromptOf ctx (museStatus ctx s)))
    (by exact hc)
  exact ⟨s2, step, heq, hcnt, hsn, hst⟩

theorem cognitoReplyTurn_cases (ctx : RunCtx) (s : LoopSt)
    (hc : ctx.o.cancel (s.callIdx + 1) = false) :
    ∃ s1 step, cognitoReplyTurn ctx s = (s1, step) ∧ s1.callIdx = s.callIdx + 1 ∧
      s1.snaps = s.snaps ++ [snapOf (cognitoStatus ctx s).st] ∧
      (step = TurnStep.next ∨ step = TurnStep.broke ∨
        ∃ m, step = TurnStep.exited (LoopExit.errored m)) := by
  unfold cognitoReplyTurn
  obtain ⟨s2, step, heq, hcnt, hsn, hst⟩ := cognitoProcess_cases ctx
    (bumpCall (cognitoStatus ctx s))
    (ctx.o.resp (cognitoStatus ctx s).callIdx (cognitoReplyPromptOf ctx (cognitoStatus ctx s)))
    (by exact hc)
  exact ⟨s2, step, heq, hcnt, hsn, hst⟩

theorem initialTurn_cases (ctx : RunCtx) (s : LoopSt)
    (hc : ctx.o.cancel (s.callIdx + 1) = false) :
    ∃ s1 step, initialTurn ctx s = (s1, step) ∧ s1.callIdx = s.callIdx + 1 ∧
      s1.snaps = s.snaps ++ [snapOf (initialStatus ctx s).st] ∧
      (step = TurnStep.next ∨ step = TurnStep.broke ∨
        ∃ m, step = TurnStep.exited (LoopExit.errored m)) := by
  unfold initialTurn
  obtain ⟨s2, step, heq, hcnt, hsn, hst⟩ := initialProcess_cases ctx
    (bumpCall (initialStatus ctx s))
    (ctx.o.resp (initialStatus ctx s).callIdx
      (cognitoInitialPromptOf ctx (initialStatus ctx s).st.notepadContent))
    (by exact hc)
  exact ⟨s2, step, heq, hcnt, hsn, hst⟩

theorem finalTurn_cases (ctx : RunCtx) (s : LoopSt)
    (hc : ctx.o.cancel (s.callIdx + 1) = false) :
    ∃ s1 step, finalTurn ctx s = (s1, step) ∧ s1.callIdx = s.callIdx + 1 ∧
      s1.snaps = s.snaps ++ [snapOf (finalStatus ctx s).st] ∧
      (step = TurnStep.next ∨ step = TurnStep.broke ∨
        ∃ m, step = TurnStep.exited (LoopExit.errored m)) := by
  unfold finalTurn
  obtain ⟨s2, step, heq, hcnt, hsn, hst⟩ := finalProcess_cases ctx
    (bumpCall (finalStatus ctx s))
    (ctx.o.resp (finalStatus ctx s).callIdx (finalAnswerPromptOf ctx (finalStatus ctx s)))
    (by exact hc)
  exact ⟨s2, step, heq, hcnt, hsn, hst⟩

/-- Cancellation safety of the discussion loop: if the flag first reads true in
the window after call `k` resolves, a loop entered below `k` calls (one
snapshot per issued call) either exits cancelled at exactly `k` calls in the
very state snapshotted when call `k` was issued, or leaves the loop (finish or
error) before call `k`. -/
theorem discussionLoop_cancel (ctx : RunCtx) (k : Nat)
    (hk : ctx.o.cancel k = true)
    (hj : ∀ j, j < k → ctx.o.cancel j = false) :
    ∀ n s, s.callIdx < k → s.snaps.length = s.callIdx →
      ∃ s' e, discussionLoop ctx n s = (s', e) ∧
        ((e = LoopExit.cancelled ∧ s'.callIdx = k ∧ s'.snaps.length = k ∧
            s'.snaps.get? (k - 1) = some (snapOf s'.st)) ∨
         (e = LoopExit.finished ∧ s'.callIdx < k ∧ s'.snaps.length = s'.callIdx) ∨
         ((∃ m, e = LoopExit.errored m) ∧ s'.callIdx < k)) := by
  intro n
  induction n with
  | zero =>
    intro s hlt hsn
    exact ⟨s, _, rfl, Or.inr (Or.inl ⟨rfl, hlt, hsn⟩)⟩
  | succ n ih =>
    intro s hlt hsn
    rw [discussionLoop, if_neg (by simp [hj _ hlt])]
    by_cases hck1 : s.callIdx + 1 = k
    · rw [museTurn_cancelled ctx s (by rw [hck1]; exact hk)]
      dsimp only
      refine ⟨_, _, rfl, Or.inl ⟨rfl, hck1, ?_, ?_⟩⟩
      · show (s.snaps ++ [snapOf (museStatus ctx s).st]).length = k
        simp only [List.length_append, List.length_cons, List.length_nil]
        omega
      · show (s.snaps ++ [snapOf (museStatus ctx s).st]).get? (k - 1) =
          some (snapOf (museStatus ctx s).st)
        have hidx : k - 1 = s.snaps.length := by omega
        rw [hidx]
        exact List.get?_concat_length _ _
    · have hlt1 : s.callIdx + 1 < k := by omega
      obtain ⟨s1, step, hms, hc1, hsn1, hstep⟩ := museTurn_cases ctx s (hj _ hlt1)
      rw [hms]
      rcases hstep with rfl | rfl | ⟨m, rfl⟩
      · dsimp only
        by_cases hf : ctx.mode = DiscussionMode.FixedTurns ∧ n = 0
        · rw [if_pos hf]
          refine ⟨s1, _, rfl, Or.inr (Or.inl ⟨rfl, by omega, ?_⟩)⟩
          rw [hsn1, hc1]
          simp only [List.length_append, List.length_cons, List.length_nil]
          omega
        · rw [if_neg hf, if_neg (by simp [hj _ (show s1.callIdx < k by omega)])]
          by_cases hck2 : s1.callIdx + 1 = k
          · rw [cognitoReplyTurn_cancelled ctx s1 (by rw [hck2]; exact hk)]
            dsimp only
            refine ⟨_, _, rfl, Or.inl ⟨rfl, hck2, ?_, ?_⟩⟩
            · show (s1.snaps ++ [snapOf (cognitoStatus ctx s1).st]).length = k
              rw [hsn1]
              simp only [List.length_append, List.length_cons, List.length_nil]
              omega
            · show (s1.snaps ++ [snapOf (cognitoStatus ctx s1).st]).get? (k - 1) =
                some (snapOf (cognitoStatus ctx s1).st)
              have hlen1 : s1.snaps.length = s.callIdx + 1 := by
                rw [hsn1]
                simp only [List.length_append, List.length_cons, List.length_nil]
                omega
              have hidx : k - 1 = s1.snaps.length := by omega
              rw [hidx]
              exact List.get?_concat_length _ _
          · have hlt2 : s1.callIdx + 1 < k := by omega
            obtain ⟨s2, step2, hcs, hc2, hsn2, hstep2⟩ :=
              cognitoReplyTurn_cases ctx s1 (hj _ hlt2)
            rw [hcs]
            rcases hstep2 with rfl | rfl | ⟨m, rfl⟩
            · dsimp only
              have hcall3 : (if n = 0 ∧ ctx.mode = DiscussionMode.AiDriven then
                  { s2 with st := addSysMessage s2.st maxTurnsReachedText } else s2).callIdx
                    = s2.callIdx := by
                split <;> rfl
              have hsnap3 : (if n = 0 ∧ ctx.mode = DiscussionMode.AiDriven then
                  { s2 with st := addSysMessage s2.st maxTurnsReachedText } else s2).snaps
                    = s2.snaps := by
                split <;> rfl
              have hlen2 : s2.snaps.length = s2.callIdx := by
                rw [hsn2, hsn1, hc2, hc1]
                simp only [List.length_append, List.length_cons, List.length_nil]
                omega
              obtain ⟨s', e, hloop, hres⟩ :=
                ih (if n = 0 ∧ ctx.mode = DiscussionMode.AiDriven then
                  { s2 with st := addSysMessage s2.st maxTurnsReachedText } else s2)
                (by rw [hcall3]; omega) (by rw [hsnap3, hcall3]; exact hlen2)
              exact ⟨s', e, hloop, hres⟩
            · dsimp only
              refine ⟨s2, _, rfl, Or.inr (Or.inl ⟨rfl, by omega, ?_⟩)⟩
              rw [hsn2, hsn1, hc2, hc1]
              simp only [List.length_append, List.length_cons, List.length_nil]
              omega
            · dsimp only
              exact ⟨s2, _, rfl, Or.inr (Or.inr ⟨⟨m, rfl⟩, by omega⟩)⟩
      · dsimp only
        refine ⟨s1, _, rfl, Or.inr (Or.inl ⟨rfl, by omega, ?_⟩)⟩
        rw [hsn1, hc1]
        simp only [List.length_append, List.length_cons, List.length_nil]
        omega
      · dsimp only
        exact ⟨s1, _, rfl, Or.inr (Or.inr ⟨⟨m, rfl⟩, by omega⟩)⟩

theorem finalizeRun_snaps (s : LoopSt) (oc : RunOutcome) :
    (finalizeRun s oc).snaps = s.snaps := rfl

/-- Cancellation safety of the whole `try` body: if the cancellation flag first
reads true in the window after gateway call `k` resolves, and the run does
issue call `k`, then the run ends cancelled with exactly `k` calls, reaches
cleanup (loading cleared, no throw), and its final observable state — the
transcript and the shared document — is exactly the snapshot taken when call
`k` was issued: nothing from call `k` on is committed. -/
theorem runAfterImage_cancel (ctx : RunCtx) (st2 : AppState) (k : Nat)
    (hk1 : 1 ≤ k) (hk : ctx.o.cancel k = true)
    (hj : ∀ j, j < k → ctx.o.cancel j = false)
    (hreach : k ≤ (runAfterImage ctx st2).calls) :
    (runAfterImage ctx st2).outcome = RunOutcome.cancelled ∧
    (runAfterImage ctx st2).calls = k ∧
    (runAfterImage ctx st2).state.isLoading = false ∧
    (runAfterImage ctx st2).snaps.length = k ∧
    (runAfterImage ctx st2).snaps.get? (k - 1) =
      some (snapOf (runAfterImage ctx st2).state) := by
  revert hreach
  unfold runAfterImage
  by_cases hk1' : k = 1
  · rw [initialTurn_cancelled ctx ⟨st2, [], [], false, 0, [], []⟩
      (by rw [hk1'] at hk; exact hk)]
    dsimp only
    intro _
    refine ⟨rfl, ?_, rfl, ?_, ?_⟩
    · rw [finalizeRun_calls]
      show 0 + 1 = k
      omega
    · rw [finalizeRun_snaps]
      show ([] ++ [snapOf (initialStatus ctx ⟨st2, [], [], false, 0, [], []⟩).st]).length = k
      simp only [List.length_append, List.length_cons, List.length_nil]
      omega
    · have hk0 : k - 1 = 0 := by omega
      rw [finalizeRun_snaps, hk0]
      rfl
  · have hc1f : ctx.o.cancel 1 = false := hj 1 (by omega)
    obtain ⟨s2, step, hin, hc2i, hsn2, hstep⟩ :=
      initialTurn_cases ctx ⟨st2, [], [], false, 0, [], []⟩ (by exact hc1f)
    rw [hin]
    have hs2c : s2.callIdx = 1 := hc2i
    rcases hstep with rfl | rfl | ⟨m, rfl⟩
    · dsimp only
      have hs2n : s2.snaps.length = 1 := by
        rw [hsn2]
        simp
      obtain ⟨s3, e, hloop, hres⟩ := discussionLoop_cancel ctx k hk hj
        (maxTurnsForLoop ctx.mode ctx.manualFixedTurns) s2 (by omega) (by omega)
      rw [hloop]
      rcases hres with ⟨rfl, hkc, hks, hkg⟩ | ⟨rfl, hlt3, hsn3⟩ | ⟨⟨m, rfl⟩, hlt3⟩
      · dsimp only
        intro _
        refine ⟨rfl, ?_, rfl, ?_, ?_⟩
        · rw [finalizeRun_calls]
          exact hkc
        · rw [finalizeRun_snaps]
          exact hks
        · rw [finalizeRun_snaps]
          exact hkg
      · dsimp only
        rw [if_neg (by simp [hj _ hlt3])]
        by_cases hck3 : s3.callIdx + 1 = k
        · rw [finalTurn_cancelled ctx s3 (by rw [hck3]; exact hk)]
          dsimp only
          intro _
          refine ⟨rfl, ?_, rfl, ?_, ?_⟩
          · rw [finalizeRun_calls]
            exact hck3
          · rw [finalizeRun_snaps]
            show (s3.snaps ++ [snapOf (finalStatus ctx s3).st]).length = k
            simp only [List.length_append, List.length_cons, List.length_nil]
            omega
          · rw [finalizeRun_snaps]
            show (s3.snaps ++ [snapOf (finalStatus ctx s3).st]).get? (k - 1) =
              some (snapOf (finalStatus ctx s3).st)
            have hidx : k - 1 = s3.snaps.length := by omega
            rw [hidx]
            exact List.get?_concat_length _ _
        · have hltf : s3.callIdx + 1 < k := by omega
          obtain ⟨s5, step5, hfin, hc5, hsn5, hstep5⟩ := finalTurn_cases ctx s3 (hj _ hltf)
          rw [hfin]
          rcases hstep5 with rfl | rfl | ⟨m, rfl⟩
          · dsimp only
            intro hreach
            rw [finalizeRun_calls] at hreach
            omega
          · dsimp only
            intro hreach
            rw [finalizeRun_calls] at hreach
            omega
          · dsimp only
            intro hreach
            rw [finalizeRun_calls] at hreach
            have hcx : ({ s5 with st := errorCatch s5.st m } : LoopSt).callIdx = s5.callIdx :=
              rfl
            omega
      · dsimp only
        intro hreach
        rw [finalizeRun_calls] at hreach
        have hcx : ({ s3 with st := errorCatch s3.st m } : LoopSt).callIdx = s3.callIdx := rfl
        omega
    · dsimp only
      intro hreach
      rw [finalizeRun_calls] at hreach
      omega
    · dsimp only
      intro hreach
      rw [finalizeRun_calls] at hreach
      have hcx : ({ s2 with st := errorCatch s2.st m } : LoopSt).callIdx = s2.callIdx := rfl
      omega

/-- C2 (confirmed): for every run that starts normally and every gateway call
`k` it issues, if the cancellation flag is set while call `k` is pending (it
reads true at the re-check after call `k` resolves, having read false at every
earlier check), then the run ends cancelled after exactly `k` calls, reaches
its cleanup without throwing (loading cleared, outcome is `cancelled`, not
`errored`), and the final transcript and shared document are exactly the
snapshot taken when call `k` was issued — the resolved call commits no
transcript append and no document write. -/
theorem C2_cancellation (o : Oracle) (userInput : List Char) (hasImage : Bool)
    (st : AppState) (k : Nat)
    (h1 : st.isApiKeyMissing = false) (h2 : st.isLoading = false)
    (h3 : ¬(trim userInput = [] ∧ hasImage = false))
    (himg : hasImage = false ∨ o.imageOk = true)
    (hk1 : 1 ≤ k) (hk : o.cancel k = true)
    (hj : ∀ j, j < k → o.cancel j = false)
    (hreach : k ≤ (handleSendMessage o userInput hasImage st).calls) :
    (handleSendMessage o userInput hasImage st).outcome = RunOutcome.cancelled ∧
    (handleSendMessage o userInput hasImage st).calls = k ∧
    (handleSendMessage o userInput hasImage st).state.isLoading = false ∧
    (handleSendMessage o userInput hasImage st).snaps.length = k ∧
    (handleSendMessage o userInput hasImage st).snaps.get? (k - 1) =
      some (snapOf (handleSendMessage o userInput hasImage st).state) := by
  revert hreach
  unfold handleSendMessage
  rw [if_neg (by simp [h1, h2]), if_neg h3]
  dsimp only
  rw [if_neg (by rcases himg with h | h <;> simp [h])]
  exact fun hr => runAfterImage_cancel ⟨o, userInput, hasImage,
    (currentModelDetails st.selectedModelApiName).name, st.discussionMode,
    st.manualFixedTurns⟩ _ k hk1 hk hj hr

/-- Oracle for the C2 witness: the cancellation flag is raised while the second
gateway call (the first Muse turn) is in flight. -/
def c2Oracle : Oracle :=
  ⟨fun _ _ => ⟨str "ok", 5, none⟩, fun k => decide (2 ≤ k), true⟩

/-- C2 witness: cancelling during call 2 ends the run cancelled with exactly
two calls and the state snapshotted at that call's issuance. -/
theorem C2_witness :
    (handleSendMessage c2Oracle (str "hi") false initialAppState).outcome =
      RunOutcome.cancelled ∧
    (handleSendMessage c2Oracle (str "hi") false initialAppState).calls = 2 ∧
    (handleSendMessage c2Oracle (str "hi") false initialAppState).state.isLoading = false ∧
    (handleSendMessage c2Oracle (str "hi") false initialAppState).snaps.length = 2 ∧
    (handleSendMessage c2Oracle (str "hi") false initialAppState).snaps.get? (2 - 1) =
      some (snapOf (handleSendMessage c2Oracle (str "hi") false initialAppState).state) :=
  C2_cancellation c2Oracle (str "hi") false initialAppState 2 rfl rfl (by decide)
    (Or.inl rfl) (by omega) rfl
    (fun j hj => by
      rcases j with _ | _ | j
      · rfl
      · rfl
      · exact absurd hj (by omega))
    (by decide)

end DualAIChat
